import Mathlib

/-!
Verification of the COPYatelier multi-agent orchestration engine
(backend/app/core: credits.py, evaluation.py, streaming.py, and
backend/app/providers/anthropic_provider.py) against its specification.

The Python source is shallowly embedded: pure functions become Lean
functions over `Nat`/`Int`/`Rat`/`String`; real-valued arithmetic
(Python floats) is modelled exactly over `ℚ`; code that can raise is
modelled in `Except`; the streaming scheduler's external collaborators
(provider calls, the cancel/pause flags set by an external controller)
are modelled as explicit oracle parameters.
-/

namespace Atelier

/-! ## Usage Meter: `backend/app/core/credits.py` -/

/-- `BASE_TOKENS_PER_CREDIT = 10_000` (credits.py line 7). -/
def BASE_TOKENS_PER_CREDIT : ℕ := 10000

/-- The static per-model multiplier table `MODEL_CREDIT_MULTIPLIERS`
(credits.py lines 11-34), as an association list. -/
def MODEL_CREDIT_MULTIPLIERS : List (String × ℚ) :=
  [("claude-opus-4-5-20251101", 5),
   ("claude-sonnet-4-5-20250929", 1),
   ("claude-sonnet-4-thinking-20250514", 3/2),
   ("claude-3-5-haiku-20241022", 1/4),
   ("gemini-2.5-pro", 6/5),
   ("gemini-2.5-flash", 2/5),
   ("gemini-2.0-flash", 3/10),
   ("gpt-4o", 1),
   ("gpt-4o-mini", 1/4),
   ("o1", 11/2),
   ("o1-mini", 2),
   ("o3-mini", 2),
   ("sonar", 1/2),
   ("sonar-pro", 3/2),
   ("sonar-reasoning", 5/2)]

/-- `MODEL_CREDIT_MULTIPLIERS.get(model, 1.0)`: dictionary lookup with
default 1.0 (credits.py line 66). -/
def modelMultiplier (model : String) : ℚ :=
  match (MODEL_CREDIT_MULTIPLIERS.find? (fun p => p.1 = model)) with
  | some p => p.2
  | none => 1

/-- `calculate_credits(model, input_tokens, output_tokens)`
(credits.py lines 48-67): `ceil(total_tokens / 10000 * multiplier)`.
Python float arithmetic is modelled exactly over `ℚ`. -/
def calculate_credits (model : String) (input_tokens output_tokens : ℕ) : ℤ :=
  let total_tokens : ℚ := (input_tokens : ℚ) + (output_tokens : ℚ)
  let base_credits : ℚ := total_tokens / (BASE_TOKENS_PER_CREDIT : ℚ)
  let multiplier := modelMultiplier model
  Int.ceil (base_credits * multiplier)

/-- An element of the `agents: list[dict]` parameter of
`estimate_session_credits`: a dict with optional "model" and "phase" keys. -/
structure AgentDict where
  model : Option String
  phase : Option ℤ
  deriving Repr, DecidableEq

/-- One iteration of the `for agent in agents` loop of
`estimate_session_credits` (credits.py lines 101-129): the credit
contribution `credits_per_turn * runs` of one agent. -/
def estimateAgentCredits (num_editors document_tokens max_rounds : ℕ)
    (a : AgentDict) : ℚ :=
  let model := a.model.getD "claude-sonnet-4-5-20250929"
  let multiplier := modelMultiplier model
  let phase := a.phase.getD 2
  let input_tokens : ℕ :=
    if phase = 1 then 500 + document_tokens
    else if phase = 2 then 300 + document_tokens
    else 300 + document_tokens + num_editors * 800
  let output_tokens : ℕ := 1000
  let tokens_per_turn : ℕ := input_tokens + output_tokens
  let credits_per_turn : ℚ :=
    ((tokens_per_turn : ℚ) / (BASE_TOKENS_PER_CREDIT : ℚ)) * multiplier
  let runs : ℕ := if phase = 1 then max_rounds + 1 else max_rounds
  credits_per_turn * (runs : ℚ)

/-- `estimate_session_credits(agents, max_rounds, document_words)`
(credits.py lines 70-131), modelled exactly over `ℚ`
(`int(document_words * 1.5)` is `⌊3w/2⌋`, i.e. Nat division by 2). -/
def estimate_session_credits (agents : List AgentDict) (max_rounds : ℕ)
    (document_words : ℕ) : ℤ :=
  let document_tokens : ℕ := 3 * document_words / 2
  let num_editors : ℕ := (agents.filter (fun a => a.phase.getD 2 = 2)).length
  Int.ceil
    ((agents.map (estimateAgentCredits num_editors document_tokens max_rounds)).sum)

/-- Every multiplier in the table is nonnegative, hence the defaulted
lookup is nonnegative. -/
theorem modelMultiplier_nonneg (model : String) : 0 ≤ modelMultiplier model := by
  unfold modelMultiplier
  rcases h : MODEL_CREDIT_MULTIPLIERS.find? (fun p => p.1 = model) with _ | p
  · simp only [h]; norm_num
  · have hp := List.mem_of_find?_eq_some h
    simp only [h]
    fin_cases hp <;> norm_num

/-- The per-turn credit-cost formula as the specification words it:
`creditsForTurn(model, inputTokens, outputTokens) =
ceil((inputTokens+outputTokens)/10000 × modelMultiplier)`, with the
multiplier taken from the static table and defaulting to 1.0. -/
def creditsForTurn (model : String) (inputTokens outputTokens : ℕ) : ℤ :=
  Int.ceil (((inputTokens : ℚ) + (outputTokens : ℚ)) / 10000
    * modelMultiplier model)

theorem estimateAgentCredits_nonneg (ne dt r : ℕ) (a : AgentDict) :
    0 ≤ estimateAgentCredits ne dt r a := by
  unfold estimateAgentCredits
  have hm := modelMultiplier_nonneg (a.model.getD "claude-sonnet-4-5-20250929")
  positivity

theorem estimateAgentCredits_mono_rounds (ne dt r r' : ℕ) (h : r ≤ r')
    (a : AgentDict) :
    estimateAgentCredits ne dt r a ≤ estimateAgentCredits ne dt r' a := by
  unfold estimateAgentCredits
  have hm := modelMultiplier_nonneg (a.model.getD "claude-sonnet-4-5-20250929")
  apply mul_le_mul_of_nonneg_left
  · have : (if a.phase.getD 2 = 1 then r + 1 else r)
        ≤ (if a.phase.getD 2 = 1 then r' + 1 else r') := by
      split <;> omega
    exact_mod_cast this
  · positivity

theorem estimateAgentCredits_mono_doc (ne dt dt' r : ℕ) (h : dt ≤ dt')
    (a : AgentDict) :
    estimateAgentCredits ne dt r a ≤ estimateAgentCredits ne dt' r a := by
  unfold estimateAgentCredits
  have hm := modelMultiplier_nonneg (a.model.getD "claude-sonnet-4-5-20250929")
  apply mul_le_mul_of_nonneg_right _ (by positivity)
  apply mul_le_mul_of_nonneg_right _ hm
  apply div_le_div_of_nonneg_right _ (by norm_num [BASE_TOKENS_PER_CREDIT])
  have : (if a.phase.getD 2 = 1 then 500 + dt
      else if a.phase.getD 2 = 2 then 300 + dt
      else 300 + dt + ne * 800) + 1000
      ≤ (if a.phase.getD 2 = 1 then 500 + dt'
      else if a.phase.getD 2 = 2 then 300 + dt'
      else 300 + dt' + ne * 800) + 1000 := by
    split <;> [omega; (split <;> omega)]
  exact_mod_cast this

/-- **C8.** `calculate_credits` implements exactly the spec formula
`ceil((inputTokens+outputTokens)/10000 × modelMultiplier)` with the
multiplier from the static table; and the multiplier of any model not
in the table is 1.0. (Real arithmetic modelled exactly over `ℚ`.) -/
theorem calculate_credits_eq_spec_formula :
    (∀ (model : String) (i o : ℕ),
      calculate_credits model i o = creditsForTurn model i o)
    ∧ (∀ model : String, model ∉ MODEL_CREDIT_MULTIPLIERS.map Prod.fst →
      modelMultiplier model = 1) := by
  constructor
  · intro model i o
    unfold calculate_credits creditsForTurn
    norm_num [BASE_TOKENS_PER_CREDIT]
  · intro model hmem
    unfold modelMultiplier
    have : MODEL_CREDIT_MULTIPLIERS.find? (fun p => p.1 = model) = none := by
      rw [List.find?_eq_none]
      intro p hp hpe
      exact hmem (List.mem_map.mpr ⟨p, hp, by simpa using hpe⟩)
    simp [this]

/-- Witness for C8: evaluating both sides at a model in the table and at
a model not in the table. -/
theorem calculate_credits_eq_spec_formula_witness :
    calculate_credits "gemini-2.0-flash" 15000 5000
      = creditsForTurn "gemini-2.0-flash" 15000 5000
    ∧ modelMultiplier "not-a-model" = 1 := by
  refine ⟨calculate_credits_eq_spec_formula.1 _ _ _,
    calculate_credits_eq_spec_formula.2 "not-a-model" (by decide)⟩

/-- **C9.** For a fixed agent list, the pre-session credit estimate is
monotonically non-decreasing in `max_rounds` (for `r' ≥ r ≥ 1`) and in
the document word count. -/
theorem estimate_session_credits_mono (agents : List AgentDict)
    (r r' w w' : ℕ) (hr1 : 1 ≤ r) (hr : r ≤ r') (hw : w ≤ w') :
    estimate_session_credits agents r w ≤ estimate_session_credits agents r' w
    ∧ estimate_session_credits agents r w
      ≤ estimate_session_credits agents r w' := by
  constructor
  · unfold estimate_session_credits
    apply Int.ceil_le_ceil
    apply List.sum_le_sum
    intro a _
    exact estimateAgentCredits_mono_rounds _ _ _ _ hr a
  · unfold estimate_session_credits
    apply Int.ceil_le_ceil
    apply List.sum_le_sum
    intro a _
    exact estimateAgentCredits_mono_doc _ _ _ _ (by omega) a

/-- Witness for C9 at a concrete two-agent configuration. -/
theorem estimate_session_credits_mono_witness :
    (1 ≤ 2 ∧ 2 ≤ 3 ∧ 100 ≤ 400)
    ∧ estimate_session_credits
        [⟨some "gpt-4o", some 1⟩, ⟨none, none⟩] 2 100
      ≤ estimate_session_credits
        [⟨some "gpt-4o", some 1⟩, ⟨none, none⟩] 3 100
    ∧ estimate_session_credits
        [⟨some "gpt-4o", some 1⟩, ⟨none, none⟩] 2 100
      ≤ estimate_session_credits
        [⟨some "gpt-4o", some 1⟩, ⟨none, none⟩] 2 400 :=
  ⟨⟨by decide, by decide, by decide⟩,
    (estimate_session_credits_mono _ 2 3 100 400 (by decide) (by decide)
      (by decide)).1,
    (estimate_session_credits_mono _ 2 3 100 400 (by decide) (by decide)
      (by decide)).2⟩

/-! ## Data model: `backend/app/models/exchange.py` -/

/-- `CriterionScore` (exchange.py lines 8-12): criterion name, score
(validated `ge=1, le=10`), justification. -/
structure CriterionScore where
  criterion : String
  score : ℚ
  justification : String
  deriving Repr, DecidableEq

/-- `Evaluation` (exchange.py lines 15-19): criteria scores, overall
score (validated `ge=1, le=10`), summary. -/
structure Evaluation where
  criteria_scores : List CriterionScore
  overall_score : ℚ
  summary : String
  deriving Repr, DecidableEq

/-! ## Python runtime model

The evaluation parser can raise Python exceptions; we model the ones its
code paths can produce.  Pydantic's `ValidationError` subclasses
`ValueError`, so it is caught by `except (KeyError, ValueError,
TypeError)` clauses; `AttributeError` and `ZeroDivisionError` are not. -/

instance {ε α : Type} [DecidableEq ε] [DecidableEq α] : DecidableEq (Except ε α) :=
  fun x y =>
    match x, y with
    | .ok a, .ok b =>
      if h : a = b then isTrue (by rw [h])
      else isFalse (by intro hh; injection hh; exact h (by assumption))
    | .error a, .error b =>
      if h : a = b then isTrue (by rw [h])
      else isFalse (by intro hh; injection hh; exact h (by assumption))
    | .ok _, .error _ => isFalse (fun hh => Except.noConfusion hh)
    | .error _, .ok _ => isFalse (fun hh => Except.noConfusion hh)

inductive PyExn where
  | validationError (msg : String)
  | attributeError (msg : String)
  | typeError (msg : String)
  | keyError (msg : String)
  | valueError (msg : String)
  | zeroDivisionError
  deriving Repr, DecidableEq

/-- Whether an exception is caught by `except (KeyError, ValueError,
TypeError)` (evaluation.py line 126).  Pydantic `ValidationError` is a
`ValueError` subclass, so it is caught. -/
def PyExn.isKeyValueTypeError : PyExn → Bool
  | .validationError _ => true
  | .keyError _ => true
  | .valueError _ => true
  | .typeError _ => true
  | .attributeError _ => false
  | .zeroDivisionError => false

/-- Rendering used for `f"... {e}"` interpolation of a caught exception;
the exact text is irrelevant to every claim. -/
def PyExn.text : PyExn → String
  | .validationError m => m
  | .attributeError m => m
  | .typeError m => m
  | .keyError m => m
  | .valueError m => m
  | .zeroDivisionError => "division by zero"

/-- `CriterionScore(criterion=…, score=…, justification=…)`: pydantic
validates `1 ≤ score ≤ 10` and raises `ValidationError` otherwise. -/
def mkCriterionScore (criterion : String) (score : ℚ) (justification : String) :
    Except PyExn CriterionScore :=
  if 1 ≤ score ∧ score ≤ 10 then .ok ⟨criterion, score, justification⟩
  else .error (.validationError "CriterionScore.score out of range")

/-- `Evaluation(criteria_scores=…, overall_score=…, summary=…)`: pydantic
validates `1 ≤ overall_score ≤ 10` and raises `ValidationError` otherwise. -/
def mkEvaluation (criteria_scores : List CriterionScore) (overall_score : ℚ)
    (summary : String) : Except PyExn Evaluation :=
  if 1 ≤ overall_score ∧ overall_score ≤ 10 then
    .ok ⟨criteria_scores, overall_score, summary⟩
  else .error (.validationError "Evaluation.overall_score out of range")

/-! ## A JSON value model and `json.loads` -/

inductive Json where
  | null
  | bool (b : Bool)
  | num (q : ℚ)
  | str (s : String)
  | arr (xs : List Json)
  | obj (kvs : List (String × Json))
  deriving Repr

/-- The opening curly brace character. -/
def lbrace : Char := Char.ofNat 123

/-- The closing curly brace character. -/
def rbrace : Char := Char.ofNat 125

/-- Python's `\s` character class (ASCII part). -/
def pyIsSpace (c : Char) : Bool :=
  c = ' ' || c = '\t' || c = '\n' || c = '\r' || c = '\x0b' || c = '\x0c'

/-- Python's `\w` character class (ASCII part). -/
def isWordChar (c : Char) : Bool :=
  c.isAlpha || c.isDigit || c = '_'

/-- JSON whitespace accepted between tokens by `json.loads`. -/
def skipJsonWs (cs : List Char) : List Char :=
  cs.dropWhile (fun c => c = ' ' || c = '\t' || c = '\n' || c = '\r')

/-- Digits to a natural number. -/
def digitsToNat (ds : List Char) : ℕ :=
  ds.foldl (fun n c => 10 * n + (c.toNat - 48)) 0

/-- Parse a JSON string body (after the opening quote), with the common
escapes. -/
def parseJsonStr : ℕ → List Char → Option (String × List Char)
  | 0, _ => none
  | _, [] => none
  | fuel + 1, c :: rest =>
    if c = '"' then some ("", rest)
    else if c = '\\' then
      match rest with
      | [] => none
      | e :: rest2 =>
        let ec : Option Char :=
          if e = 'n' then some '\n'
          else if e = 't' then some '\t'
          else if e = 'r' then some '\r'
          else if e = 'b' then some '\x08'
          else if e = 'f' then some '\x0c'
          else if e = '"' then some '"'
          else if e = '\\' then some '\\'
          else if e = '/' then some '/'
          else none
        match ec with
        | none => none
        | some ch =>
          (parseJsonStr fuel rest2).map (fun p => (String.mk (ch :: p.1.toList), p.2))
    else
      (parseJsonStr fuel rest).map (fun p => (String.mk (c :: p.1.toList), p.2))

/-- Parse a JSON number. -/
def parseJsonNum (cs : List Char) : Option (ℚ × List Char) :=
  let (neg, cs1) := match cs with
    | '-' :: r => (true, r)
    | _ => (false, cs)
  let ds := cs1.takeWhile Char.isDigit
  if ds.isEmpty then none
  else
    let cs2 := cs1.drop ds.length
    let intPart : ℚ := (digitsToNat ds : ℚ)
    let (v1, cs3) := match cs2 with
      | '.' :: r =>
        let fs := r.takeWhile Char.isDigit
        if fs.isEmpty then (intPart, cs2)
        else (intPart + (digitsToNat fs : ℚ) / ((10 : ℚ) ^ fs.length), r.drop fs.length)
      | _ => (intPart, cs2)
    let (v2, cs4) := match cs3 with
      | e :: r =>
        if e = 'e' || e = 'E' then
          let (eneg, r1) := match r with
            | '-' :: r2 => (true, r2)
            | '+' :: r2 => (false, r2)
            | _ => (false, r)
          let es := r1.takeWhile Char.isDigit
          if es.isEmpty then (v1, cs3)
          else
            let k := digitsToNat es
            (if eneg then v1 / (10 : ℚ) ^ k else v1 * (10 : ℚ) ^ k, r1.drop es.length)
        else (v1, cs3)
      | _ => (v1, cs3)
    some (if neg then -v2 else v2, cs4)

/-- Parser mode: a whole value, the items of an array, or the members of
an object (accumulators included).  A single fuel-indexed function keeps
the recursion structural so that proofs can evaluate it. -/
inductive JMode where
  | val
  | arrItems (acc : List Json)
  | objItems (acc : List (String × Json))

/-- Recursive JSON parser (value / array items / object members). -/
def jsonParse : ℕ → JMode → List Char → Option (Json × List Char)
  | 0, _, _ => none
  | fuel + 1, .val, cs =>
    (match skipJsonWs cs with
     | [] => none
     | c :: rest =>
       if c = '"' then (parseJsonStr (fuel + 1) rest).map (fun p => (Json.str p.1, p.2))
       else if c = lbrace then
         (match skipJsonWs rest with
          | d :: rest2 =>
            if d = rbrace then some (Json.obj [], rest2)
            else jsonParse fuel (.objItems []) rest
          | [] => none)
       else if c = '[' then
         (match skipJsonWs rest with
          | ']' :: rest2 => some (Json.arr [], rest2)
          | _ => jsonParse fuel (.arrItems []) rest)
       else if ['n', 'u', 'l', 'l'].isPrefixOf (c :: rest) then
         some (Json.null, (c :: rest).drop 4)
       else if ['t', 'r', 'u', 'e'].isPrefixOf (c :: rest) then
         some (Json.bool true, (c :: rest).drop 4)
       else if ['f', 'a', 'l', 's', 'e'].isPrefixOf (c :: rest) then
         some (Json.bool false, (c :: rest).drop 5)
       else (parseJsonNum (c :: rest)).map (fun p => (Json.num p.1, p.2)))
  | fuel + 1, .arrItems acc, cs =>
    (match jsonParse fuel .val cs with
     | none => none
     | some (v, rest) =>
       match skipJsonWs rest with
       | ',' :: rest2 => jsonParse fuel (.arrItems (acc ++ [v])) rest2
       | ']' :: rest2 => some (Json.arr (acc ++ [v]), rest2)
       | _ => none)
  | fuel + 1, .objItems acc, cs =>
    (match skipJsonWs cs with
     | [] => none
     | c :: rest =>
       if c = '"' then
         match parseJsonStr (fuel + 1) rest with
         | none => none
         | some (key, rest2) =>
           match skipJsonWs rest2 with
           | ':' :: rest3 =>
             (match jsonParse fuel .val rest3 with
              | none => none
              | some (v, rest4) =>
                match skipJsonWs rest4 with
                | ',' :: rest5 => jsonParse fuel (.objItems (acc ++ [(key, v)])) rest5
                | d :: rest5 =>
                  if d = rbrace then some (Json.obj (acc ++ [(key, v)]), rest5)
                  else none
                | [] => none)
           | _ => none
       else none)

/-- Parse one JSON value. -/
def parseJsonV (fuel : ℕ) (cs : List Char) : Option (Json × List Char) :=
  jsonParse fuel .val cs

/-- `json.loads`: parse a complete JSON document; trailing non-whitespace
is a decode error.  Errors carry a message only (`json.JSONDecodeError`). -/
def json_loads (s : String) : Except String Json :=
  match parseJsonV (2 * s.length + 4) s.toList with
  | some (j, rest) =>
    if (skipJsonWs rest).isEmpty then .ok j else .error "Extra data"
  | none => .error "Expecting value"

/-- Python `d.get(key, default)`: `AttributeError` when the value is not
a dict (e.g. `"str" object has no attribute "get"`).  JSON-sourced dicts
keep the last binding for a duplicated key. -/
def pyGet (j : Json) (key : String) (default : Json) : Except PyExn Json :=
  match j with
  | .obj kvs => .ok (((kvs.reverse.find? (fun kv => kv.1 = key)).map Prod.snd).getD default)
  | _ => .error (.attributeError "object has no attribute get")

/-- Python `x[key]` with a string key: `KeyError` for a missing dict key,
`TypeError` for non-dict values. -/
def pySubscript (j : Json) (key : String) : Except PyExn Json :=
  match j with
  | .obj kvs =>
    match kvs.reverse.find? (fun kv => kv.1 = key) with
    | some kv => .ok kv.2
    | none => .error (.keyError key)
  | .str _ => .error (.typeError "string indices must be integers")
  | _ => .error (.typeError "object is not subscriptable")

/-- Python `for x in v`: lists yield elements, strings yield 1-character
strings, dicts yield keys; other values raise `TypeError`. -/
def pyIter (j : Json) : Except PyExn (List Json) :=
  match j with
  | .arr xs => .ok xs
  | .str s => .ok (s.toList.map (fun c => Json.str (String.mk [c])))
  | .obj kvs => .ok (kvs.map (fun kv => Json.str kv.1))
  | _ => .error (.typeError "object is not iterable")

/-- A minimal model of Python `float(x)` on JSON-shaped values: numbers
pass through, booleans coerce, numeric strings parse, everything else
raises (`ValueError` for bad strings, `TypeError` otherwise). -/
def pyFloat (j : Json) : Except PyExn ℚ :=
  match j with
  | .num q => .ok q
  | .bool b => .ok (if b then 1 else 0)
  | .str s =>
    let t := s.toList.dropWhile pyIsSpace
    let t := (t.reverse.dropWhile pyIsSpace).reverse
    let (neg, t1) := match t with
      | '-' :: r => (true, r)
      | '+' :: r => (false, r)
      | _ => (false, t)
    let ds := t1.takeWhile Char.isDigit
    if ds.isEmpty then .error (.valueError "could not convert string to float")
    else
      let t2 := t1.drop ds.length
      let intPart : ℚ := (digitsToNat ds : ℚ)
      match t2 with
      | [] => .ok (if neg then -intPart else intPart)
      | '.' :: r =>
        let fs := r.takeWhile Char.isDigit
        if r.drop fs.length ≠ [] then .error (.valueError "could not convert string to float")
        else
          let v := intPart + (digitsToNat fs : ℚ) / ((10 : ℚ) ^ fs.length)
          .ok (if neg then -v else v)
      | _ => .error (.valueError "could not convert string to float")
  | .null => .error (.typeError "float() argument must not be None")
  | _ => .error (.typeError "float() argument")

/-- Pydantic `str` field validation: only `str` values are accepted
(raises `ValidationError`, a `ValueError` subclass, otherwise). -/
def pyStrField (j : Json) : Except PyExn String :=
  match j with
  | .str s => .ok s
  | _ => .error (.validationError "str type expected")

/-! ## Evaluation Parser: `backend/app/core/evaluation.py` -/

/-- `_parse_json_structure(data, expected_criteria)` (evaluation.py lines
89-127) before its `except (KeyError, ValueError, TypeError)` handler.
The `expected_criteria` parameter is declared but never read, exactly as
in the source. -/
def parseJsonStructureBody (data : Json) (expected_criteria : List String) :
    Except PyExn (Option Evaluation × Option String) := do
  let _ := expected_criteria
  let eval_data ← pyGet data "evaluation" data
  let criteria_list ← pyGet eval_data "criteria_scores" (Json.arr [])
  let items ← pyIter criteria_list
  let criteria_scores ← items.foldlM (fun acc criterion_data => do
    let v1 ← pySubscript criterion_data "criterion"
    let v2j ← pySubscript criterion_data "score"
    let v2 ← pyFloat v2j
    let v3 ← pyGet criterion_data "justification" (Json.str "")
    let criterion ← pyStrField v1
    let justification ← pyStrField v3
    let cscore ← mkCriterionScore criterion v2 justification
    pure (acc ++ [cscore])) ([] : List CriterionScore)
  let overallJ ← pyGet eval_data "overall_score" (Json.num 0)
  let overall_score ← pyFloat overallJ
  let summaryJ ← pyGet eval_data "summary" (Json.str "")
  -- `if overall_score == 0 and criteria_scores:` — recompute as the mean
  -- (the guard makes the division safe here)
  let overall_score :=
    if overall_score = 0 ∧ criteria_scores ≠ [] then
      ((criteria_scores.map (·.score)).sum) / (criteria_scores.length : ℚ)
    else overall_score
  let summary ← pyStrField summaryJ
  let ev ← mkEvaluation criteria_scores overall_score summary
  pure (some ev, none)

/-- `_parse_json_structure` with its exception handler: `KeyError`,
`ValueError` (including pydantic `ValidationError`) and `TypeError` are
caught and turned into `(None, "JSON structure error: …")`; any other
exception (notably `AttributeError`) propagates. -/
def parse_json_structure (data : Json) (expected_criteria : List String) :
    Except PyExn (Option Evaluation × Option String) :=
  match parseJsonStructureBody data expected_criteria with
  | .ok r => .ok r
  | .error e =>
    if e.isKeyValueTypeError then .ok (none, some ("JSON structure error: " ++ e.text))
    else .error e

/-- Case-insensitive prefix test (ASCII `re.IGNORECASE`). -/
def ciIsPrefix : List Char → List Char → Bool
  | [], _ => true
  | _ :: _, [] => false
  | a :: as, b :: bs => a.toLower = b.toLower && ciIsPrefix as bs

/-- The lazy tail of the fenced-block pattern
`` ```json\s*(\{.*?\})\s*``` `` (DOTALL): scan for the first closing
brace that is followed by optional whitespace and three backticks;
return the group `{…}`. -/
def fenceLazyClose (acc : List Char) : List Char → Option String
  | [] => none
  | c :: rest =>
    if c = rbrace &&
        ['`', '`', '`'].isPrefixOf (rest.dropWhile pyIsSpace) then
      some (String.mk ((c :: acc).reverse))
    else fenceLazyClose (c :: acc) rest

/-- Attempt the fenced-block pattern right after a literal ` ```json `:
`\s*` then the brace group. -/
def fenceAttempt (cs : List Char) : Option String :=
  match cs.dropWhile pyIsSpace with
  | c :: body => if c = lbrace then fenceLazyClose [c] body else none
  | [] => none

/-- `re.findall(r'```json\s*(\{.*?\})\s*```', raw, re.DOTALL)` restricted
to the first match (the source only uses `matches[0]`): try the pattern
at each successive position. -/
def findJsonFence : List Char → Option String
  | [] => none
  | c :: rest =>
    match (if ['`', '`', '`', 'j', 's', 'o', 'n'].isPrefixOf (c :: rest) then
        fenceAttempt ((c :: rest).drop 7) else none) with
    | some g => some g
    | none => findJsonFence rest

/-- The raw-brace scan of `_try_json_extraction` (evaluation.py lines
68-84): from the first opening brace, count nesting until it returns to
zero, and return that candidate substring (the loop `break`s after the
first balance point whether or not it decodes). -/
def braceScanAux (depth : ℕ) (acc : List Char) : List Char → Option String
  | [] => none
  | c :: rest =>
    if c = lbrace then braceScanAux (depth + 1) (c :: acc) rest
    else if c = rbrace then
      if depth = 1 then some (String.mk ((c :: acc).reverse))
      else braceScanAux (depth - 1) (c :: acc) rest
    else braceScanAux depth (c :: acc) rest

/-- Find `raw[brace_start : i+1]` for the first balanced top-level brace
pair, if any. -/
def braceScan (cs : List Char) : Option String :=
  match cs.dropWhile (· ≠ lbrace) with
  | [] => none
  | c :: rest => braceScanAux 1 [c] rest

/-- `_try_json_extraction(raw_response, expected_criteria)`
(evaluation.py lines 51-86).  A decode failure on the fenced block is
reported; a decode failure on the raw-brace candidate is `pass`ed and
the loop `break`s, falling through to `(None, "No valid JSON found")`. -/
def try_json_extraction (raw_response : String) (expected_criteria : List String) :
    Except PyExn (Option Evaluation × Option String) :=
  match findJsonFence raw_response.toList with
  | some block =>
    match json_loads block with
    | .ok data => parse_json_structure data expected_criteria
    | .error e => .ok (none, some ("JSON decode error: " ++ e))
  | none =>
    match braceScan raw_response.toList with
    | some candidate =>
      match json_loads candidate with
      | .ok data => parse_json_structure data expected_criteria
      | .error _ => .ok (none, some "No valid JSON found")
    | none => .ok (none, some "No valid JSON found")

/-- Parse the digit string captured by `(\d+(?:\.\d+)?)` as a rational
(`float(...)` on such a string is exact). -/
def numStrToRat (s : String) : ℚ :=
  let cs := s.toList
  let ds := cs.takeWhile Char.isDigit
  match cs.drop ds.length with
  | '.' :: fs => (digitsToNat ds : ℚ) + (digitsToNat fs : ℚ) / ((10 : ℚ) ^ fs.length)
  | _ => (digitsToNat ds : ℚ)

/-- Match the tail of the per-criterion pattern
`\s*:?\s*(\d+(?:\.\d+)?)\s*(?:/\s*10)?` at the head of `cs` (just past
the criterion name); return the captured number string and the count of
characters consumed. -/
def nlScoreTail (cs : List Char) : Option (String × ℕ) :=
  let s1 := cs.dropWhile pyIsSpace
  let n1 := cs.length - s1.length
  let (s2, n2) := match s1 with
    | ':' :: r => (r, n1 + 1)
    | _ => (s1, n1)
  let s3 := s2.dropWhile pyIsSpace
  let n3 := n2 + (s2.length - s3.length)
  let ds := s3.takeWhile Char.isDigit
  if ds.isEmpty then none
  else
    let s4 := s3.drop ds.length
    let (numStr, s5, n5) := match s4 with
      | '.' :: r =>
        let fs := r.takeWhile Char.isDigit
        if fs.isEmpty then (ds, s4, n3 + ds.length)
        else (ds ++ '.' :: fs, r.drop fs.length, n3 + ds.length + 1 + fs.length)
      | _ => (ds, s4, n3 + ds.length)
    let s6 := s5.dropWhile pyIsSpace
    let n6 := n5 + (s5.length - s6.length)
    match s6 with
    | '/' :: r =>
      let r2 := r.dropWhile pyIsSpace
      if ['1', '0'].isPrefixOf r2 then
        some (String.mk numStr, n6 + 1 + (r.length - r2.length) + 2)
      else some (String.mk numStr, n6)
    | _ => some (String.mk numStr, n6)

/-- `re.search` for the per-criterion pattern: try each start position in
order; return the captured number and the match-end index. -/
def nlCriterionSearch (crit : List Char) : List Char → ℕ → Option (String × ℕ)
  | [], pos =>
    if crit.isEmpty then (nlScoreTail []).map (fun p => (p.1, pos + p.2)) else none
  | c :: rest, pos =>
    match (if ciIsPrefix crit (c :: rest) then
        (nlScoreTail ((c :: rest).drop crit.length)).map
          (fun p => (p.1, pos + crit.length + p.2))
      else none) with
    | some m => some m
    | none => nlCriterionSearch crit rest (pos + 1)

/-- Match the tail of the overall pattern
`\s*(?:score)?:?\s*(\d+(?:\.\d+)?)\s*(?:/\s*10)?` just past a literal
`overall`; per regex backtracking, the optional `score` literal is tried
first. -/
def nlOverallTail (cs : List Char) : Option String :=
  let attempt : List Char → Option String := fun s => do
    let s2 := match s with
      | ':' :: r => r
      | _ => s
    let s3 := s2.dropWhile pyIsSpace
    let ds := s3.takeWhile Char.isDigit
    if ds.isEmpty then none
    else
      let s4 := s3.drop ds.length
      match s4 with
      | '.' :: r =>
        let fs := r.takeWhile Char.isDigit
        if fs.isEmpty then some (String.mk ds)
        else some (String.mk (ds ++ '.' :: fs))
      | _ => some (String.mk ds)
  let s1 := cs.dropWhile pyIsSpace
  match (if ciIsPrefix ['s', 'c', 'o', 'r', 'e'] s1 then attempt (s1.drop 5) else none) with
  | some g => some g
  | none => attempt s1

/-- `re.search` for
`overall\s*(?:score)?:?\s*(\d+(?:\.\d+)?)\s*(?:/\s*10)?` (IGNORECASE). -/
def nlOverallSearch : List Char → Option String
  | [] => none
  | c :: rest =>
    match (if ciIsPrefix ['o', 'v', 'e', 'r', 'a', 'l', 'l'] (c :: rest) then
        nlOverallTail ((c :: rest).drop 7) else none) with
    | some g => some g
    | none => nlOverallSearch rest

/-- Whether `(?:\n\n|\n#|$)` matches at the head of `cs` (no MULTILINE:
`$` holds at the end of the string or just before a final newline). -/
def sumTerminator (cs : List Char) : Bool :=
  match cs with
  | [] => true
  | ['\n'] => true
  | '\n' :: '\n' :: _ => true
  | '\n' :: '#' :: _ => true
  | _ => false

/-- The lazy group `(.+?)` (DOTALL) before the terminator: take the
shortest non-empty prefix after which the terminator matches. -/
def sumLazyGroup (acc : List Char) : List Char → Option String
  | [] => none
  | c :: rest =>
    if sumTerminator rest then some (String.mk ((c :: acc).reverse))
    else sumLazyGroup (c :: acc) rest

/-- Greedy `\s*` before the lazy group, with backtracking: try the
maximal whitespace run first, then shorter runs. -/
def sumSpacesBacktrack (s : List Char) (k : ℕ) : Option String :=
  match sumLazyGroup [] (s.drop k) with
  | some g => some g
  | none => match k with
    | 0 => none
    | k' + 1 => sumSpacesBacktrack s k'

/-- Match the tail `:?\s*(.+?)(?:\n\n|\n#|$)` just past a summary label;
the optional colon is consumed first and given back on failure. -/
def sumTail (cs : List Char) : Option String :=
  let run : List Char → Option String := fun s =>
    sumSpacesBacktrack s (s.takeWhile pyIsSpace).length
  match cs with
  | ':' :: r =>
    (match run r with
     | some g => some g
     | none => run cs)
  | _ => run cs

/-- `re.search` for `(?:summary|overall assessment):?\s*(.+?)(?:\n\n|\n#|$)`
(IGNORECASE, DOTALL): `summary` is tried before `overall assessment` at
each position. -/
def nlSummarySearch : List Char → Option String
  | [] => none
  | c :: rest =>
    match (if ciIsPrefix ['s', 'u', 'm', 'm', 'a', 'r', 'y'] (c :: rest) then
        sumTail ((c :: rest).drop 7) else none) with
    | some g => some g
    | none =>
      match (if ciIsPrefix
          ['o', 'v', 'e', 'r', 'a', 'l', 'l', ' ', 'a', 's', 's', 'e', 's',
            's', 'm', 'e', 'n', 't'] (c :: rest) then
          sumTail ((c :: rest).drop 18) else none) with
      | some g => some g
      | none => nlSummarySearch rest

/-- Python `s.strip()`: remove leading and trailing whitespace. -/
def pyStrip (s : String) : String :=
  String.mk (((s.toList.dropWhile pyIsSpace).reverse.dropWhile pyIsSpace).reverse)

/-- Python `s.strip(chars)`: remove leading and trailing characters drawn
from the given set. -/
def pyStripChars (cset : List Char) (s : String) : String :=
  String.mk
    (((s.toList.dropWhile (cset.contains ·)).reverse.dropWhile (cset.contains ·)).reverse)

/-- Python `s.split('\n')[0]`. -/
def firstLine (s : String) : String :=
  String.mk (s.toList.takeWhile (· ≠ '\n'))

/-- `_try_natural_language_parsing(raw_response, expected_criteria)`
(evaluation.py lines 130-191).  `CriterionScore` and `Evaluation`
construction is NOT wrapped in any handler here, so pydantic
`ValidationError` propagates out. -/
def try_natural_language_parsing (raw_response : String)
    (expected_criteria : List String) :
    Except PyExn (Option Evaluation × Option String) := do
  let cs := raw_response.toList
  let criteria_scores ← expected_criteria.foldlM (fun acc criterion => do
    match nlCriterionSearch criterion.toList cs 0 with
    | none => pure acc
    | some (numStr, endIdx) =>
      let score := numStrToRat numStr
      if score ≤ 10 then
        let next_section := String.mk ((cs.drop endIdx).take 200)
        let justification :=
          if pyStrip next_section ≠ "" then
            pyStripChars [':', ' ', '-'] (firstLine next_section)
          else ""
        let cscore ← mkCriterionScore criterion score justification
        pure (acc ++ [cscore])
      else pure acc) ([] : List CriterionScore)
  if criteria_scores ≠ [] then
    let overall_score : ℚ :=
      match nlOverallSearch cs with
      | some numStr => numStrToRat numStr
      | none => ((criteria_scores.map (·.score)).sum) / (criteria_scores.length : ℚ)
    let summary :=
      match nlSummarySearch cs with
      | some g => pyStrip g
      | none => ""
    let ev ← mkEvaluation criteria_scores overall_score summary
    pure (some ev, none)
  else pure (none, some "No natural language scores found")

/-- `\b` after the matched number of `\b([1-9]|10)(?:\.\d+)?\b`: the next
character must be a non-word character (or the end). -/
def afterNumberOk (rest : List Char) : Bool :=
  match rest with
  | [] => true
  | c :: _ => ¬isWordChar c

/-- Try `([1-9]|10)(?:\.\d+)?\b` at a position whose preceding character
is a word boundary; return the captured group and the rest of the input
after the match.  Alternatives and the optional fraction follow regex
backtracking order. -/
def tryMatchNum (c : Char) (rest : List Char) : Option (String × List Char) :=
  let alt1 : Option (String × List Char) :=
    if '1' ≤ c && c ≤ '9' then
      match rest with
      | '.' :: r =>
        let fs := r.takeWhile Char.isDigit
        if ¬fs.isEmpty && afterNumberOk (r.drop fs.length) then
          some (String.mk [c], r.drop fs.length)
        else if afterNumberOk rest then some (String.mk [c], rest)
        else none
      | _ => if afterNumberOk rest then some (String.mk [c], rest) else none
    else none
  match alt1 with
  | some m => some m
  | none =>
    if c = '1' then
      match rest with
      | '0' :: r2 =>
        (match r2 with
         | '.' :: r3 =>
           let fs := r3.takeWhile Char.isDigit
           if ¬fs.isEmpty && afterNumberOk (r3.drop fs.length) then
             some ("10", r3.drop fs.length)
           else if afterNumberOk r2 then some ("10", r2)
           else none
         | _ => if afterNumberOk r2 then some ("10", r2) else none)
      | _ => none
    else none

/-- `re.findall(r'\b([1-9]|10)(?:\.\d+)?\b', raw_response)`: scan left to
right, resuming after each match (fuel-driven because a match can skip
several characters). -/
def fallbackScan : ℕ → Bool → List Char → List String
  | 0, _, _ => []
  | _, _, [] => []
  | fuel + 1, prevIsWord, c :: rest =>
    if ¬prevIsWord then
      match tryMatchNum c rest with
      | some (g, rest') => g :: fallbackScan fuel true rest'
      | none => fallbackScan fuel (isWordChar c) rest
    else fallbackScan fuel (isWordChar c) rest

/-- `_try_fallback_extraction(raw_response, expected_criteria)`
(evaluation.py lines 194-226).  With a non-empty numbers list and an
empty expected-criteria list, `sum(...) / len(criteria_scores)` is a
Python `ZeroDivisionError`, modelled explicitly. -/
def try_fallback_extraction (raw_response : String)
    (expected_criteria : List String) :
    Except PyExn (Option Evaluation × Option String) := do
  let cs := raw_response.toList
  let numbers := fallbackScan (cs.length + 1) false cs
  if numbers ≠ [] then
    let scores := (numbers.take expected_criteria.length).map numStrToRat
    let criteria_scores ← (expected_criteria.zip scores).foldlM
      (fun acc p => do
        let cscore ← mkCriterionScore p.1 p.2 "(Auto-extracted)"
        pure (acc ++ [cscore])) ([] : List CriterionScore)
    if criteria_scores.length = 0 then
      Except.error PyExn.zeroDivisionError
    else
      let overall_score :=
        ((criteria_scores.map (·.score)).sum) / (criteria_scores.length : ℚ)
      let ev ← mkEvaluation criteria_scores overall_score
        "(Scores extracted via fallback parsing)"
      pure (some ev, none)
  else pure (none, some "No extractable scores found")

/-- `parse_evaluation(raw_response, expected_criteria)` (evaluation.py
lines 10-48): the three strategies in order, the first success winning;
when all fail, `(None, "Failed to parse evaluation: <last error>")`. -/
def parse_evaluation (raw_response : String) (expected_criteria : List String) :
    Except PyExn (Option Evaluation × Option String) := do
  let (ev1, _) ← try_json_extraction raw_response expected_criteria
  match ev1 with
  | some e => pure (some e, none)
  | none =>
    let (ev2, _) ← try_natural_language_parsing raw_response expected_criteria
    match ev2 with
    | some e => pure (some e, none)
    | none =>
      let (ev3, err3) ← try_fallback_extraction raw_response expected_criteria
      match ev3 with
      | some e => pure (some e, none)
      | none =>
        pure (none, some ("Failed to parse evaluation: " ++ err3.getD "None"))

/-- The evaluation parser does recover well-formed content: a check of
the embedding on a fenced-free natural-language response. -/
theorem parse_evaluation_roundtrip_nl :
    parse_evaluation "Clarity: 8/10 - crisp" ["Clarity"]
      = .ok (some ⟨[⟨"Clarity", 8, "crisp"⟩], 8, ""⟩, none)
    ∧ parse_evaluation "nothing here" ["Clarity"]
      = .ok (none, some "Failed to parse evaluation: No extractable scores found") :=
  ⟨by with_unfolding_all rfl, by rfl⟩

/-- **C3.** The claim that `parse_evaluation` never raises is FALSE on
the code: on `"Accuracy: 0"` with expected criterion `"Accuracy"`, the
natural-language strategy matches a score of 0 (`score <= 10` does not
filter it) and constructs `CriterionScore(score=0.0)` outside any
handler, so pydantic raises `ValidationError` (`ge=1`); and on `"7"`
with an empty expected-criteria list, the fallback strategy divides by
`len(criteria_scores) = 0` and raises `ZeroDivisionError`. -/
theorem parse_evaluation_raises :
    parse_evaluation "Accuracy: 0" ["Accuracy"]
      = .error (.validationError "CriterionScore.score out of range")
    ∧ parse_evaluation "7" [] = .error .zeroDivisionError :=
  ⟨by rfl, by rfl⟩

/-- **C10.** The structured-extraction strategy never reads the expected
criteria names: its result is the same for any two expected-criteria
lists; and a successful structured parse can return criterion names
disjoint from the expected ones (here `"Clarity"` against expected
`["Accuracy", "Style"]`). -/
theorem try_json_extraction_ignores_expected :
    (∀ (raw : String) (c₁ c₂ : List String),
      try_json_extraction raw c₁ = try_json_extraction raw c₂)
    ∧ try_json_extraction
        "\x7b\"criteria_scores\": [\x7b\"criterion\": \"Clarity\", \"score\": 7\x7d], \"overall_score\": 7, \"summary\": \"ok\"\x7d"
        ["Accuracy", "Style"]
      = .ok (some ⟨[⟨"Clarity", 7, ""⟩], 7, "ok"⟩, none)
    ∧ (([⟨"Clarity", (7 : ℚ), ""⟩] : List CriterionScore).map
        (fun c => c.criterion)).filter
        (fun n => (["Accuracy", "Style"] : List String).contains n) = [] :=
  ⟨fun _ _ _ => rfl, by with_unfolding_all rfl, by decide⟩

/-! ## Provider Gateway retry: `backend/app/providers/anthropic_provider.py` -/

/-- `MAX_RETRIES = 3` (anthropic_provider.py line 16). -/
def MAX_RETRIES : ℕ := 3

/-- `BASE_DELAY = 2` seconds (line 17). -/
def BASE_DELAY : ℕ := 2

/-- `MAX_DELAY = 10` seconds (line 18). -/
def MAX_DELAY : ℕ := 10

/-- A provider failure as `_is_retryable_error` inspects it: whether the
exception is an `APIStatusError`, its status code, and `str(error)`. -/
structure ProviderError where
  isAPIStatusError : Bool
  status_code : ℕ
  message : String
  deriving Repr, DecidableEq

/-- Substring test (`needle in hay` on Python strings). -/
def hasSubstr (hay needle : List Char) : Bool :=
  needle.isPrefixOf hay ||
    match hay with
    | [] => false
    | _ :: rest => hasSubstr rest needle

/-- `AnthropicProvider._is_retryable_error` (lines 27-37): retry on 429,
503, 529, or an `'overloaded'`/`'rate_limit'` message, and only for
`APIStatusError` instances. -/
def is_retryable_error (e : ProviderError) : Bool :=
  e.isAPIStatusError &&
    (e.status_code = 429 || e.status_code = 503 || e.status_code = 529
      || hasSubstr (e.message.toList.map Char.toLower) "overloaded".toList
      || hasSubstr (e.message.toList.map Char.toLower) "rate_limit".toList)

/-- The observable outcome of `_retry_with_backoff`: the returned value
or raised error, how many times the operation was called, and the sleep
delays performed (in order). -/
structure RetryTrace (α : Type) where
  result : Except ProviderError α
  calls : ℕ
  delays : List ℕ
  deriving Repr, DecidableEq

/-- The `for attempt in range(MAX_RETRIES)` loop of `_retry_with_backoff`
(lines 43-66), from a given attempt index with the remaining iteration
count as structural fuel.  A non-retryable error is re-raised at once;
otherwise a delay of `min(BASE_DELAY * 2**attempt, MAX_DELAY)` precedes
the next attempt, and the last error is raised on exhaustion. -/
def retryFrom {α : Type} (op : ℕ → Except ProviderError α) :
    ℕ → ℕ → List ℕ → RetryTrace α
  | 0, attempt, delays =>
    -- not reachable from `retry_with_backoff` (fuel starts at MAX_RETRIES)
    ⟨.error ⟨false, 0, "None"⟩, attempt, delays⟩
  | fuel + 1, attempt, delays =>
    match op attempt with
    | .ok v => ⟨.ok v, attempt + 1, delays⟩
    | .error e =>
      if ¬ is_retryable_error e then ⟨.error e, attempt + 1, delays⟩
      else if attempt < MAX_RETRIES - 1 then
        retryFrom op fuel (attempt + 1)
          (delays ++ [min (BASE_DELAY * 2 ^ attempt) MAX_DELAY])
      else ⟨.error e, attempt + 1, delays⟩

/-- `AnthropicProvider._retry_with_backoff(operation, ...)` (lines
39-66), with the operation modelled as the outcome of each attempt. -/
def retry_with_backoff {α : Type} (op : ℕ → Except ProviderError α) :
    RetryTrace α :=
  retryFrom op MAX_RETRIES 0 []

/-- **C7.** The retry helper: at most 3 calls in total; a first
non-retryable failure at attempt `k` (after `k` retryable ones) is
raised immediately with no further call and no delay after it; when all
3 attempts fail retryably, the delays are `min(2·2^a, 10)` for `a = 0,
1` — i.e. `[2, 4]` — and the last error is raised; a success at attempt
`k` after `k` retryable failures returns it after `k` backoff delays. -/
theorem retry_with_backoff_policy {α : Type} (op : ℕ → Except ProviderError α) :
    ((retry_with_backoff op).calls ≤ MAX_RETRIES)
    ∧ (∀ k e, k < MAX_RETRIES → op k = .error e → is_retryable_error e = false →
      (∀ j, j < k → ∃ ej, op j = .error ej ∧ is_retryable_error ej = true) →
      retry_with_backoff op = ⟨.error e, k + 1,
        (List.range k).map (fun a => min (BASE_DELAY * 2 ^ a) MAX_DELAY)⟩)
    ∧ ((∀ j, j < MAX_RETRIES → ∃ ej, op j = .error ej ∧ is_retryable_error ej = true) →
      ∃ e2, op 2 = .error e2 ∧ retry_with_backoff op = ⟨.error e2, 3, [2, 4]⟩)
    ∧ (∀ k v, k < MAX_RETRIES → op k = .ok v →
      (∀ j, j < k → ∃ ej, op j = .error ej ∧ is_retryable_error ej = true) →
      retry_with_backoff op = ⟨.ok v, k + 1,
        (List.range k).map (fun a => min (BASE_DELAY * 2 ^ a) MAX_DELAY)⟩) := by
  have calls_le : ∀ (fuel attempt : ℕ) (delays : List ℕ),
      (retryFrom op fuel attempt delays).calls ≤ attempt + fuel := by
    intro fuel
    induction fuel with
    | zero => intro attempt delays; simp [retryFrom]
    | succ n ih =>
      intro attempt delays
      rcases h : op attempt with e | v
      · by_cases hr : is_retryable_error e = true
        · by_cases hlt : attempt < MAX_RETRIES - 1
          · rw [show retryFrom op (n + 1) attempt delays
                = retryFrom op n (attempt + 1)
                  (delays ++ [min (BASE_DELAY * 2 ^ attempt) MAX_DELAY]) from by
              simp [retryFrom, h, hr, hlt]]
            exact le_trans (ih _ _) (by omega)
          · have hc : (retryFrom op (n + 1) attempt delays).calls = attempt + 1 := by
              simp [retryFrom, h, hr, hlt]
            omega
        · have hc : (retryFrom op (n + 1) attempt delays).calls = attempt + 1 := by
            simp [retryFrom, h, hr]
          omega
      · have hc : (retryFrom op (n + 1) attempt delays).calls = attempt + 1 := by
          simp [retryFrom, h]
        omega
  refine ⟨?_, ?_, ?_, ?_⟩
  · have := calls_le MAX_RETRIES 0 []
    simpa [retry_with_backoff] using this
  · intro k e hk hop hnr hprev
    have hk3 : k < 3 := hk
    interval_cases k
    · simp [retry_with_backoff, retryFrom, MAX_RETRIES, hop, hnr]
    · obtain ⟨e0, h0, hr0⟩ := hprev 0 (by omega)
      simp [retry_with_backoff, retryFrom, MAX_RETRIES, h0, hr0, hop, hnr,
        BASE_DELAY, MAX_DELAY, List.range_succ]
    · obtain ⟨e0, h0, hr0⟩ := hprev 0 (by omega)
      obtain ⟨e1, h1, hr1⟩ := hprev 1 (by omega)
      simp [retry_with_backoff, retryFrom, MAX_RETRIES, h0, hr0, h1, hr1, hop,
        hnr, BASE_DELAY, MAX_DELAY, List.range_succ]
  · intro hall
    obtain ⟨e0, h0, hr0⟩ := hall 0 (by simp [MAX_RETRIES])
    obtain ⟨e1, h1, hr1⟩ := hall 1 (by simp [MAX_RETRIES])
    obtain ⟨e2, h2, hr2⟩ := hall 2 (by simp [MAX_RETRIES])
    refine ⟨e2, h2, ?_⟩
    simp [retry_with_backoff, retryFrom, MAX_RETRIES, h0, hr0, h1, hr1, h2,
      hr2, BASE_DELAY, MAX_DELAY]
  · intro k v hk hop hprev
    have hk3 : k < 3 := hk
    interval_cases k
    · simp [retry_with_backoff, retryFrom, MAX_RETRIES, hop]
    · obtain ⟨e0, h0, hr0⟩ := hprev 0 (by omega)
      simp [retry_with_backoff, retryFrom, MAX_RETRIES, h0, hr0, hop,
        BASE_DELAY, MAX_DELAY, List.range_succ]
    · obtain ⟨e0, h0, hr0⟩ := hprev 0 (by omega)
      obtain ⟨e1, h1, hr1⟩ := hprev 1 (by omega)
      simp [retry_with_backoff, retryFrom, MAX_RETRIES, h0, hr0, h1, hr1, hop,
        BASE_DELAY, MAX_DELAY, List.range_succ]

/-- Witness for C7 at a concrete operation: a rate-limited 429 failure on
every attempt gives 3 calls with backoff delays `[2, 4]` and re-raises
the last error. -/
theorem retry_with_backoff_policy_witness :
    retry_with_backoff (α := Unit) (fun _ => .error ⟨true, 429, "rate limited"⟩)
      = ⟨.error ⟨true, 429, "rate limited"⟩, 3, [2, 4]⟩ := by
  obtain ⟨e2, h2, hres⟩ :=
    (retry_with_backoff_policy (α := Unit)
      (fun _ => .error ⟨true, 429, "rate limited"⟩)).2.2.1
      (fun j _ => ⟨⟨true, 429, "rate limited"⟩, rfl, by decide⟩)
  have : e2 = ⟨true, 429, "rate limited"⟩ := by
    simpa using h2.symm
  rw [this] at hres
  exact hres

/-! ## Round Scheduler: `backend/app/core/streaming.py`

`StreamingOrchestrator.run_streaming` is embedded as a state-passing
function.  External collaborators are oracle parameters:

* the configured-provider set (`self.providers`, from the API keys);
* the outcome of each `generate_stream_with_usage` call, indexed by the
  turn number assigned to the invocation (each invocation gets a fresh
  turn number before it runs);
* the `is_cancelled` / `is_paused` flags, set by an external controller:
  each read of a flag consults an oracle at the next read index, which
  over-approximates every possible interleaving with the controller;
* `parse_evaluation` and `extract_content_from_response`, passed as
  opaque total functions (the former's possible exceptions are the
  subject of C3 and are not re-modelled here).

Prompt construction (`_build_*_prompt`) only produces strings fed to the
provider and never influences the orchestration state, so prompt text is
not part of the embedding.  `agent_token` events and the
`turn_usage_records` list are likewise omitted: no modelled state or
claim depends on them.  Events put on the phase-2 queue by concurrently
running editor tasks are recorded editor-by-editor: only intra-editor
event order and the state effects (which happen after all tasks
complete, in task order) are claimed by the spec. -/

inductive ProviderType where
  | anthropic
  | google
  | openai
  | perplexity
  deriving Repr, DecidableEq

/-- An evaluation criterion of an `AgentConfig`. -/
structure Criterion where
  name : String
  description : String
  deriving Repr, DecidableEq

/-- `AgentConfig` (models/agent.py), restricted to the fields the
scheduler reads. -/
structure AgentConfig where
  agent_id : String
  display_name : String
  provider : ProviderType
  model : String
  evaluation_criteria : List Criterion
  is_active : Bool
  phase : ℤ
  deriving Repr, DecidableEq

/-- `TerminationCondition` (models/session.py lines 17-25):
`max_rounds ≥ 1`, optional `score_threshold` in 1-10 (pydantic). -/
structure TerminationCondition where
  max_rounds : ℕ
  score_threshold : Option ℚ
  deriving Repr, DecidableEq

/-- `SessionConfig` (models/session.py), restricted to the fields the
scheduler's control flow reads. -/
structure SessionConfig where
  session_id : String
  agents : List AgentConfig
  termination : TerminationCondition
  initial_prompt : String
  working_document : String
  deriving Repr, DecidableEq

/-- `ExchangeTurn` (models/exchange.py lines 22-44). -/
structure ExchangeTurn where
  turn_number : ℕ
  round_number : ℕ
  agent_id : String
  agent_name : String
  output : String
  raw_response : String
  evaluation : Option Evaluation
  parse_error : Option String
  working_document : String
  tokens_input : ℕ
  tokens_output : ℕ
  credits_used : ℤ
  deriving Repr, DecidableEq

/-- The lifecycle events of the stream (`StreamEventType`), with the
payload fields the claims inspect. -/
inductive StreamEvent where
  | session_start (agent_count : ℕ)
  | round_start (round : ℕ) (is_final_pass : Bool)
  | agent_start (agent_id : String) (turn_number : ℕ) (round_number : ℕ)
      (phase : ℤ) (is_final_pass : Bool)
  | agent_complete (agent_id : String) (turn_number : ℕ) (is_final_pass : Bool)
  | round_complete (round : ℕ)
  | session_complete (reason : String) (rounds_completed : ℕ) (turns_completed : ℕ)
  | session_paused (turn_number : ℕ)
  | session_resumed (turn_number : ℕ)
  | credit_warning (remaining_credits : ℤ)
  | error (message : String)
  deriving Repr, DecidableEq

/-- Outcome of one `generate_stream_with_usage` provider call: the
streamed content with usage-reported token counts, or a raised
exception. -/
inductive CallResult where
  | ok (content : String) (input_tokens output_tokens : ℕ)
  | exn (message : String)
  deriving Repr, DecidableEq

/-- The oracle bundle for one session run (see the section comment). -/
structure Oracles where
  providerConfigured : ProviderType → Bool
  call : ℕ → CallResult
  cancelled : ℕ → Bool
  paused : ℕ → Bool
  pauseEndsCancelled : ℕ → Bool
  parseEval : String → List String → Option Evaluation × Option String
  extractContent : String → String

/-- The scheduler's mutable state: `SessionState` fields it writes plus
the orchestrator's own counters, the emitted event list, and the oracle
read indices. -/
structure SchedState where
  history : List ExchangeTurn
  current_round : ℕ
  turn_number : ℕ
  session_credits_used : ℤ
  credit_warning_sent : Bool
  editor_feedback : String
  events : List StreamEvent
  cancelReads : ℕ
  pauseReads : ℕ
  termination_reason : Option String
  deriving Repr, DecidableEq

/-- Append one emitted event. -/
def emitEv (st : SchedState) (e : StreamEvent) : SchedState :=
  { st with events := st.events ++ [e] }

/-- The value of `self.state.is_cancelled` at its next read. -/
def cancelledNow (os : Oracles) (st : SchedState) : Bool :=
  os.cancelled st.cancelReads

/-- Advance the cancel-flag read index past one read. -/
def afterCancelRead (st : SchedState) : SchedState :=
  { st with cancelReads := st.cancelReads + 1 }

/-- The value of `self.state.is_paused` at its next read. -/
def pausedNow (os : Oracles) (st : SchedState) : Bool :=
  os.paused st.pauseReads

/-- Advance the pause-flag read index past one read. -/
def afterPauseRead (st : SchedState) : SchedState :=
  { st with pauseReads := st.pauseReads + 1 }

@[simp] theorem afterCancelRead_history (st : SchedState) :
    (afterCancelRead st).history = st.history := rfl

@[simp] theorem afterCancelRead_turn_number (st : SchedState) :
    (afterCancelRead st).turn_number = st.turn_number := rfl

@[simp] theorem afterCancelRead_current_round (st : SchedState) :
    (afterCancelRead st).current_round = st.current_round := rfl

@[simp] theorem afterCancelRead_termination_reason (st : SchedState) :
    (afterCancelRead st).termination_reason = st.termination_reason := rfl

@[simp] theorem afterCancelRead_session_credits_used (st : SchedState) :
    (afterCancelRead st).session_credits_used = st.session_credits_used := rfl

@[simp] theorem afterPauseRead_history (st : SchedState) :
    (afterPauseRead st).history = st.history := rfl

@[simp] theorem afterPauseRead_turn_number (st : SchedState) :
    (afterPauseRead st).turn_number = st.turn_number := rfl

@[simp] theorem afterPauseRead_current_round (st : SchedState) :
    (afterPauseRead st).current_round = st.current_round := rfl

@[simp] theorem afterPauseRead_termination_reason (st : SchedState) :
    (afterPauseRead st).termination_reason = st.termination_reason := rfl

/-- `[a for a in config.agents if a.is_active]`
(`_get_agents_by_phase`, streaming.py line 535). -/
def activeAgents (cfg : SessionConfig) : List AgentConfig :=
  cfg.agents.filter (fun a => a.is_active)

/-- `phases[1]`: active Writers. -/
def phase1Agents (cfg : SessionConfig) : List AgentConfig :=
  (activeAgents cfg).filter (fun a => a.phase = 1)

/-- `phases[2]`: active Editors; an unknown phase defaults to the editor
bucket (streaming.py lines 538-542). -/
def phase2Agents (cfg : SessionConfig) : List AgentConfig :=
  (activeAgents cfg).filter (fun a => a.phase ≠ 1 ∧ a.phase ≠ 3)

/-- `phases[3]`: active Synthesizers. -/
def phase3Agents (cfg : SessionConfig) : List AgentConfig :=
  (activeAgents cfg).filter (fun a => a.phase = 3)

/-- `_get_current_document` (lines 476-480): the last turn's snapshot, or
the configured initial document. -/
def getCurrentDocument (cfg : SessionConfig) (history : List ExchangeTurn) : String :=
  match history.getLast? with
  | some t => t.working_document
  | none => cfg.working_document

/-- `_update_working_document(agent, agent_output)` (lines 482-493): only
phase-1 agents replace the document. -/
def update_working_document (cfg : SessionConfig) (history : List ExchangeTurn)
    (agent : AgentConfig) (agent_output : String) : String :=
  if agent.phase = 1 then agent_output
  else getCurrentDocument cfg history

/-- The `agent_phases` dict of `_check_termination` (lines 712-717) with
its `.get(turn.agent_id, 1)` default; a duplicated id keeps the last
binding, as a Python dict comprehension does. -/
def activePhaseOf (cfg : SessionConfig) (agent_id : String) : ℤ :=
  match (activeAgents cfg).reverse.find? (fun a => a.agent_id = agent_id) with
  | some a => a.phase
  | none => 1

/-- A rendering of `f"{score:.1f}"` (one decimal, round half away from
zero; Python uses round-half-even, but no claim depends on the digits of
this string). -/
def formatScore1f (q : ℚ) : String :=
  let n : ℤ := Int.floor (q * 10 + 1 / 2)
  toString (n / 10) ++ "." ++ toString (n % 10)

/-- `_check_termination` (lines 703-735).  The reversed-history loop that
breaks at the first phase-3 turn with a truthy evaluation is rendered as
`find?` on the reversed list; `if ...score_threshold:` is Python
truthiness, so a 0 threshold is treated as unset. -/
def check_termination (cfg : SessionConfig) (history : List ExchangeTurn)
    (current_round : ℕ) : Option String :=
  if cfg.termination.max_rounds ≤ current_round then
    some ("Maximum rounds reached (" ++ toString cfg.termination.max_rounds ++ ")")
  else
    match cfg.termination.score_threshold with
    | none => none
    | some threshold =>
      if threshold = 0 then none
      else
        match history.reverse.find? (fun t =>
            activePhaseOf cfg t.agent_id = 3 ∧ t.evaluation.isSome) with
        | some t =>
          match t.evaluation with
          | some ev =>
            if threshold ≤ ev.overall_score then
              some ("Quality target reached: " ++ t.agent_name ++ " scored "
                ++ formatScore1f ev.overall_score ++ " (target: "
                ++ toString threshold ++ ")")
            else none
          | none => none
        | none => none

/-- The usage dict of `_calculate_turn_credits` (lines 747-769). -/
structure Usage where
  input_tokens : ℕ
  output_tokens : ℕ
  credits_used : ℤ
  deriving Repr, DecidableEq

/-- `_calculate_turn_credits(model, input_tokens, output_tokens)`. -/
def calculate_turn_credits (model : String) (input_tokens output_tokens : ℕ) :
    Usage :=
  ⟨input_tokens, output_tokens, calculate_credits model input_tokens output_tokens⟩

/-- Construction of an `ExchangeTurn` from a successful call, shared by
the three recording sites (sequential agents, editor tasks, final pass):
parse the evaluation, extract the output, and attach usage; only the
`working_document` argument differs between the sites. -/
def buildTurn (os : Oracles) (agent : AgentConfig) (turn_number round_number : ℕ)
    (content : String) (input_tokens output_tokens : ℕ) (doc : String) :
    ExchangeTurn :=
  let pe := os.parseEval content (agent.evaluation_criteria.map (fun c => c.name))
  let output := os.extractContent content
  let usage := calculate_turn_credits agent.model input_tokens output_tokens
  { turn_number := turn_number, round_number := round_number,
    agent_id := agent.agent_id, agent_name := agent.display_name,
    output := output, raw_response := content, evaluation := pe.1,
    parse_error := pe.2, working_document := doc,
    tokens_input := usage.input_tokens, tokens_output := usage.output_tokens,
    credits_used := usage.credits_used }

@[simp] theorem buildTurn_turn_number (os agent tn rn content i o doc) :
    (buildTurn os agent tn rn content i o doc).turn_number = tn := rfl

@[simp] theorem buildTurn_agent_id (os agent tn rn content i o doc) :
    (buildTurn os agent tn rn content i o doc).agent_id = agent.agent_id := rfl

@[simp] theorem buildTurn_working_document (os agent tn rn content i o doc) :
    (buildTurn os agent tn rn content i o doc).working_document = doc := rfl

@[simp] theorem buildTurn_output (os agent tn rn content i o doc) :
    (buildTurn os agent tn rn content i o doc).output = os.extractContent content := rfl

/-- The result dict of `_run_single_editor_streaming` together with the
events the task put on the shared queue. -/
structure EditorResult where
  events : List StreamEvent
  success : Bool
  turn : Option ExchangeTurn
  usage : Option Usage
  agent_id : String
  output : Option String
  deriving Repr, DecidableEq

/-- `_run_single_editor_streaming(agent, turn_number, event_queue)`
(lines 545-701): one phase-2 editor task.  It reads the session context
(`history` as it was when the batch was launched) and returns its result
dict; it never mutates shared state. -/
def run_single_editor_streaming (os : Oracles) (cfg : SessionConfig)
    (history : List ExchangeTurn) (current_round : ℕ)
    (agent : AgentConfig) (turn_number : ℕ) : EditorResult :=
  let startEv := StreamEvent.agent_start agent.agent_id turn_number current_round 2 false
  if ¬ os.providerConfigured agent.provider then
    { events := [startEv, .error ("Provider " ++ agent.display_name ++ " not configured")],
      success := false, turn := none, usage := none,
      agent_id := agent.agent_id, output := none }
  else
    match os.call turn_number with
    | .exn msg =>
      { events := [startEv, .error msg], success := false, turn := none,
        usage := none, agent_id := agent.agent_id, output := none }
    | .ok content input_tokens output_tokens =>
      let output := os.extractContent content
      let current_doc := getCurrentDocument cfg history
      let usage := calculate_turn_credits agent.model input_tokens output_tokens
      let turn := buildTurn os agent turn_number current_round content
        input_tokens output_tokens current_doc
      { events := [startEv, .agent_complete agent.agent_id turn_number false],
        success := true, turn := some turn, usage := some usage,
        agent_id := agent.agent_id, output := some output }

/-- How a phase step leaves the round: fall through to the next phase, or
`return` out of the whole generator (credit depletion). -/
inductive StepOutcome where
  | fallThrough
  | sessionReturn
  deriving Repr, DecidableEq

/-- The low-credit warning check after a completed agent / batch
(lines 1134-1142 and 928-936). -/
def creditWarningCheck (initial_balance : Option ℤ) (st : SchedState) : SchedState :=
  match initial_balance with
  | none => st
  | some b =>
    if ¬ st.credit_warning_sent ∧ b - st.session_credits_used < 5 then
      emitEv { st with credit_warning_sent := true }
        (.credit_warning (b - st.session_credits_used))
    else st

/-- The body of one sequential (phase 1/3) agent invocation, after the
cancellation and credit checks (lines 962-1159): assign the turn number,
emit `agent_start`, call the provider (missing provider or a raised
error yields an `error` event and no turn), record the turn, emit
`agent_complete`, do the credit-warning and pause checks. -/
def runOneSequentialAgent (os : Oracles) (cfg : SessionConfig)
    (initial_balance : Option ℤ) (st : SchedState) (agent : AgentConfig) :
    SchedState :=
  let turn_number := st.turn_number + 1
  let st := { st with turn_number := turn_number }
  let st := emitEv st
    (.agent_start agent.agent_id turn_number st.current_round agent.phase false)
  if ¬ os.providerConfigured agent.provider then
    emitEv st (.error ("Provider " ++ agent.display_name ++ " not configured"))
  else
    match os.call turn_number with
    | .exn msg => emitEv st (.error msg)
    | .ok content input_tokens output_tokens =>
      let output := os.extractContent content
      let updated_document := update_working_document cfg st.history agent output
      let usage := calculate_turn_credits agent.model input_tokens output_tokens
      let st := { st with
        session_credits_used := st.session_credits_used + usage.credits_used }
      let turn := buildTurn os agent turn_number st.current_round content
        input_tokens output_tokens updated_document
      let st := { st with history := st.history ++ [turn] }
      let st := emitEv st (.agent_complete agent.agent_id turn_number false)
      let st := creditWarningCheck initial_balance st
      let p := pausedNow os st
      let st := afterPauseRead st
      if p then
        let st := emitEv st (.session_paused turn_number)
        if os.pauseEndsCancelled (st.pauseReads - 1) then st
        else emitEv st (.session_resumed turn_number)
      else st

/-- The sequential `for agent in phases[phase_num]` loop (lines 941-1159)
with its per-agent cancellation check (line 943) and per-agent credit
check (lines 948-960).  The Bool part reports whether the loop `break`d
on cancellation. -/
def runSequentialAgents (os : Oracles) (cfg : SessionConfig)
    (initial_balance : Option ℤ) :
    SchedState → List AgentConfig → SchedState × StepOutcome
  | st, [] => (st, .fallThrough)
  | st, agent :: rest =>
    let c := cancelledNow os st
    let st := afterCancelRead st
    if c then
      ({ st with termination_reason := some "Stopped by user" }, .fallThrough)
    else
      let depleted :=
        match initial_balance with
        | some b => decide (b - st.session_credits_used < 2)
        | none => false
      if depleted then
        let st := { st with termination_reason := some "Insufficient credits" }
        let st := emitEv st
          (.session_complete "credit_depleted" st.current_round st.history.length)
        (st, .sessionReturn)
      else
        let st := runOneSequentialAgent os cfg initial_balance st agent
        runSequentialAgents os cfg initial_balance st rest

/-- The per-result processing step of the phase-2 batch (lines 899-917):
append the turn to history when present and accumulate the usage. -/
def editorFoldStep (acc : SchedState) (r : EditorResult) : SchedState :=
  let acc :=
    match r.turn with
    | some t => { acc with history := acc.history ++ [t] }
    | none => acc
  match r.usage with
  | some u => { acc with
      session_credits_used := acc.session_credits_used + u.credits_used }
  | none => acc

/-- The `editor_turn_numbers` dict built before the batch launches
(streaming.py lines 852-855): iterate the editors, increment the counter
once per editor, and bind the editor's `agent_id` to the current number.
Recorded in insertion order; a duplicated `agent_id` rebinding is
resolved at lookup time, where the last binding wins, as in a Python
dict. -/
def assignEditorNumbers : List AgentConfig → ℕ → List (String × ℕ)
  | [], _ => []
  | a :: rest, n => (a.agent_id, n + 1) :: assignEditorNumbers rest (n + 1)

/-- Python dict lookup over the insertion-ordered binding list: the last
binding of the key wins.  The scheduler only ever looks up keys it has
just bound, so the default is never reached there. -/
def dictGet (d : List (String × ℕ)) (k : String) (dflt : ℕ) : ℕ :=
  match d.reverse.find? (fun p => p.1 = k) with
  | some p => p.2
  | none => dflt

/-- The editor tasks of one batch, over the pre-batch context; each task
receives `editor_turn_numbers[agent.agent_id]` (streaming.py line 864),
looked up in the dict built from the whole batch — editors sharing an
`agent_id` therefore all receive the last number bound to that id. -/
def editorResults (os : Oracles) (cfg : SessionConfig) (H : List ExchangeTurn)
    (cr : ℕ) (ags : List AgentConfig) (s : ℕ) : List EditorResult :=
  ags.map (fun a => run_single_editor_streaming os cfg H cr a
    (dictGet (assignEditorNumbers ags s) a.agent_id 0))

/-- The turns a batch appends to history, in task order. -/
def editorTurns (os : Oracles) (cfg : SessionConfig) (H : List ExchangeTurn)
    (cr : ℕ) (ags : List AgentConfig) (s : ℕ) : List ExchangeTurn :=
  (editorResults os cfg H cr ags s).filterMap (fun r => r.turn)

/-- The phase-2 parallel editor batch (lines 835-938): pre-batch credit
check (`remaining < editors_count * 2` aborts the whole session), the
counter advanced once per editor to fill the `editor_turn_numbers` dict,
all tasks run against the pre-batch state with their dict-assigned
numbers, then their results are folded into history/usage in task
order, the feedback is aggregated for the Synthesizer, and the credit
warning is checked. -/
def runEditorBatch (os : Oracles) (cfg : SessionConfig)
    (initial_balance : Option ℤ) (st : SchedState) : SchedState × StepOutcome :=
  let editors := phase2Agents cfg
  let depleted :=
    match initial_balance with
    | some b => decide (b - st.session_credits_used < editors.length * 2)
    | none => false
  if depleted then
    let st := { st with termination_reason := some "Insufficient credits" }
    let st := emitEv st
      (.session_complete "credit_depleted" st.current_round st.history.length)
    (st, .sessionReturn)
  else
    let results := editorResults os cfg st.history st.current_round editors
      st.turn_number
    let st := { st with turn_number := st.turn_number + editors.length }
    let st := { st with
      events := st.events ++ (results.map (fun (r : EditorResult) => r.events)).flatten }
    let st := results.foldl editorFoldStep st
    let feedback_parts := results.filterMap (fun (r : EditorResult) =>
      if r.success ∧ (r.output.getD "") ≠ "" then
        match r.turn with
        | some t => some ("### " ++ t.agent_name ++ "\n" ++ r.output.getD "" ++ "\n")
        | none => none
      else none)
    let st := { st with editor_feedback :=
      if feedback_parts.isEmpty then "(No editor feedback)"
      else String.intercalate "\n---\n" feedback_parts }
    let st := creditWarningCheck initial_balance st
    (st, .fallThrough)

/-- The `for phase_num in [1, 2, 3]` loop (lines 828-1163): the per-phase
cancellation check (line 830), the phase-2 batch (whose `continue` skips
the end-of-body check), and the end-of-body cancellation check
(line 1162) for sequential phases. -/
def runPhaseLoop (os : Oracles) (cfg : SessionConfig)
    (initial_balance : Option ℤ) :
    List ℤ → SchedState → SchedState × StepOutcome
  | [], st => (st, .fallThrough)
  | p :: rest, st =>
    let c := cancelledNow os st
    let st := afterCancelRead st
    if c then
      ({ st with termination_reason := some "Stopped by user" }, .fallThrough)
    else
      if p = 2 ∧ ¬ (phase2Agents cfg).isEmpty then
        match runEditorBatch os cfg initial_balance st with
        | (st, .sessionReturn) => (st, .sessionReturn)
        | (st, .fallThrough) => runPhaseLoop os cfg initial_balance rest st
      else
        let agents :=
          if p = 1 then phase1Agents cfg
          else if p = 2 then []
          else phase3Agents cfg
        match runSequentialAgents os cfg initial_balance st agents with
        | (st, .sessionReturn) => (st, .sessionReturn)
        | (st, .fallThrough) =>
          let c2 := cancelledNow os st
          let st := afterCancelRead st
          if c2 then (st, .fallThrough)
          else runPhaseLoop os cfg initial_balance rest st

/-- The final Writer pass after a termination reason fires (lines
1186-1305): guarded by `phases[1] and not self.state.is_cancelled`, it
assigns a fresh turn number, emits final-pass `round_start` and
`agent_start`, and on a successful call records the turn and emits
`agent_complete`; a missing provider or raised error is only logged. -/
def runFinalPass (os : Oracles) (cfg : SessionConfig) (st : SchedState) :
    SchedState :=
  match phase1Agents cfg with
  | [] => st
  | writer :: _ =>
    let c := cancelledNow os st
    let st := afterCancelRead st
    if c then st
    else
      let turn_number := st.turn_number + 1
      let st := { st with turn_number := turn_number }
      let st := emitEv st (.round_start st.current_round true)
      let st := emitEv st
        (.agent_start writer.agent_id turn_number st.current_round 1 true)
      if ¬ os.providerConfigured writer.provider then st
      else
        match os.call turn_number with
        | .exn _ => st
        | .ok content input_tokens output_tokens =>
          let output := os.extractContent content
          let updated_document := update_working_document cfg st.history writer output
          let usage := calculate_turn_credits writer.model input_tokens output_tokens
          let st := { st with
            session_credits_used := st.session_credits_used + usage.credits_used }
          let turn := buildTurn os writer turn_number st.current_round content
            input_tokens output_tokens updated_document
          let st := { st with history := st.history ++ [turn] }
          emitEv st (.agent_complete writer.agent_id turn_number true)

/-- The start of one round-loop iteration (lines 816-826): increment the
round counter, emit `round_start`, reset the per-round editor feedback. -/
def startRound (st : SchedState) : SchedState :=
  let st := { st with current_round := st.current_round + 1 }
  let st := emitEv st (.round_start st.current_round false)
  { st with editor_feedback := "" }

@[simp] theorem startRound_history (st : SchedState) :
    (startRound st).history = st.history := rfl

@[simp] theorem startRound_turn_number (st : SchedState) :
    (startRound st).turn_number = st.turn_number := rfl

@[simp] theorem startRound_current_round (st : SchedState) :
    (startRound st).current_round = st.current_round + 1 := rfl

@[simp] theorem startRound_termination_reason (st : SchedState) :
    (startRound st).termination_reason = st.termination_reason := rfl

@[simp] theorem startRound_session_credits_used (st : SchedState) :
    (startRound st).session_credits_used = st.session_credits_used := rfl

/-- The `while True` round loop (lines 805-1312), fuel-indexed: the
top-of-round cancellation check, round increment and `round_start`, the
phase loop, the post-round cancellation check (line 1166),
`round_complete`, termination evaluation, and on termination the final
Writer pass and `session_complete`.  `check_termination` fires by round
`max_rounds`, so `max_rounds + 1` units of fuel are never exhausted. -/
def runRounds (os : Oracles) (cfg : SessionConfig)
    (initial_balance : Option ℤ) : ℕ → SchedState → SchedState
  | 0, st => st
  | fuel + 1, st =>
    let c := cancelledNow os st
    let st := afterCancelRead st
    if c then
      let st := { st with termination_reason := some "Stopped by user" }
      emitEv st (.session_complete "Stopped by user" st.current_round st.history.length)
    else
      let st := startRound st
      match runPhaseLoop os cfg initial_balance [1, 2, 3] st with
      | (st, .sessionReturn) => st
      | (st, .fallThrough) =>
        let c2 := cancelledNow os st
        let st := afterCancelRead st
        if c2 then
          emitEv st (.session_complete "Stopped by user" st.current_round st.history.length)
        else
          let st := emitEv st (.round_complete st.current_round)
          match check_termination cfg st.history st.current_round with
          | some reason =>
            let st := { st with termination_reason := some reason }
            let st := runFinalPass os cfg st
            emitEv st (.session_complete reason st.current_round st.history.length)
          | none => runRounds os cfg initial_balance fuel st

/-- `run_streaming` (lines 771-1316): initialise the state, reject an
empty active-agent set, emit `session_start`, and run the round loop. -/
def run_streaming (os : Oracles) (cfg : SessionConfig)
    (initial_balance : Option ℤ) : SchedState :=
  let st0 : SchedState :=
    { history := [], current_round := 0, turn_number := 0,
      session_credits_used := 0, credit_warning_sent := false,
      editor_feedback := "", events := [], cancelReads := 0, pauseReads := 0,
      termination_reason := none }
  let active := phase1Agents cfg ++ phase2Agents cfg ++ phase3Agents cfg
  if active.isEmpty then emitEv st0 (.error "No active agents configured")
  else
    let st := emitEv st0 (.session_start active.length)
    runRounds os cfg initial_balance (cfg.termination.max_rounds + 1) st

/-- **C4.** When `max_rounds` has not been reached and a (pydantic-valid,
hence nonzero) score threshold is configured, `_check_termination`
inspects only the most recent phase-3 evaluation: writing the history as
`h₁ ++ t :: h₂` where `t` is a phase-3 turn carrying an evaluation and
nothing in `h₂` (the newer turns) is a phase-3 turn with an evaluation —
if `t`'s overall score reaches the threshold the session terminates with
a "Quality target reached" reason; if it falls short the result is
`none` (the session continues) no matter what older evaluations `h₁`
holds; and with no phase-3 evaluation anywhere the result is `none`. -/
theorem check_termination_most_recent_phase3 (cfg : SessionConfig)
    (h₁ h₂ : List ExchangeTurn) (t : ExchangeTurn) (cr : ℕ) (T : ℚ)
    (ev : Evaluation)
    (hcr : cr < cfg.termination.max_rounds)
    (hth : cfg.termination.score_threshold = some T)
    (hT : T ≠ 0)
    (ht3 : activePhaseOf cfg t.agent_id = 3)
    (hev : t.evaluation = some ev)
    (hafter : ∀ u ∈ h₂, ¬ (activePhaseOf cfg u.agent_id = 3 ∧ u.evaluation.isSome)) :
    ((T ≤ ev.overall_score →
      ∃ s, check_termination cfg (h₁ ++ t :: h₂) cr
        = some ("Quality target reached" ++ s))
    ∧ (ev.overall_score < T → check_termination cfg (h₁ ++ t :: h₂) cr = none))
    ∧ (∀ hist : List ExchangeTurn,
      (∀ u ∈ hist, ¬ (activePhaseOf cfg u.agent_id = 3 ∧ u.evaluation.isSome)) →
      check_termination cfg hist cr = none) := by
  have hfind : (h₁ ++ t :: h₂).reverse.find?
      (fun u => activePhaseOf cfg u.agent_id = 3 ∧ u.evaluation.isSome) = some t := by
    rw [List.reverse_append, List.reverse_cons, List.append_assoc,
      List.find?_append]
    have h2none : h₂.reverse.find?
        (fun u => activePhaseOf cfg u.agent_id = 3 ∧ u.evaluation.isSome) = none := by
      rw [List.find?_eq_none]
      intro u hu
      simpa using hafter u (List.mem_reverse.mp hu)
    rw [h2none]
    simp [List.find?_cons, ht3, hev]
  constructor
  · constructor
    · intro hge
      refine ⟨": " ++ t.agent_name ++ " scored " ++ formatScore1f ev.overall_score
        ++ " (target: " ++ toString T ++ ")", ?_⟩
      unfold check_termination
      rw [if_neg (show ¬ cfg.termination.max_rounds ≤ cr by omega)]
      simp only [hth, hfind, hev]
      rw [if_neg hT, if_pos hge]
      simp only [String.append_assoc]
      conv_rhs => rw [← String.append_assoc]
      congr 1
    · intro hlt
      unfold check_termination
      rw [if_neg (show ¬ cfg.termination.max_rounds ≤ cr by omega)]
      simp only [hth, hfind, hev]
      rw [if_neg hT, if_neg (by exact not_le.mpr hlt)]
  · intro hist hnone
    have hfnone : hist.reverse.find?
        (fun u => activePhaseOf cfg u.agent_id = 3 ∧ u.evaluation.isSome) = none := by
      rw [List.find?_eq_none]
      intro u hu
      simpa using hnone u (List.mem_reverse.mp hu)
    unfold check_termination
    rw [if_neg (show ¬ cfg.termination.max_rounds ≤ cr by omega)]
    simp only [hth, hfnone]
    rw [if_neg hT]

/-- Witness for C4: a two-turn history whose most recent phase-3
evaluation scores 9 ≥ 8 (older one scores 2), and the same history with
the scores swapped, where the session continues. -/
theorem check_termination_most_recent_phase3_witness :
    (∃ s,
      check_termination
        ⟨"s", [⟨"synthesizer", "Synth", .google, "m", [], true, 3⟩], ⟨5, some 8⟩,
          "p", ""⟩
        [⟨1, 1, "synthesizer", "Synth", "o", "r", some ⟨[], 2, ""⟩, none, "", 0, 0, 0⟩,
         ⟨2, 2, "synthesizer", "Synth", "o", "r", some ⟨[], 9, ""⟩, none, "", 0, 0, 0⟩]
        1 = some ("Quality target reached" ++ s))
    ∧ check_termination
        ⟨"s", [⟨"synthesizer", "Synth", .google, "m", [], true, 3⟩], ⟨5, some 8⟩,
          "p", ""⟩
        [⟨1, 1, "synthesizer", "Synth", "o", "r", some ⟨[], 9, ""⟩, none, "", 0, 0, 0⟩,
         ⟨2, 2, "synthesizer", "Synth", "o", "r", some ⟨[], 2, ""⟩, none, "", 0, 0, 0⟩]
        1 = none := by
  constructor
  · exact ((check_termination_most_recent_phase3 _
      [⟨1, 1, "synthesizer", "Synth", "o", "r", some ⟨[], 2, ""⟩, none, "", 0, 0, 0⟩]
      [] ⟨2, 2, "synthesizer", "Synth", "o", "r", some ⟨[], 9, ""⟩, none, "", 0, 0, 0⟩
      1 8 ⟨[], 9, ""⟩ (by decide) rfl (by decide) (by decide) rfl
      (by intro u hu; simp at hu)).1).1 (by decide)
  · exact ((check_termination_most_recent_phase3 _
      [⟨1, 1, "synthesizer", "Synth", "o", "r", some ⟨[], 9, ""⟩, none, "", 0, 0, 0⟩]
      [] ⟨2, 2, "synthesizer", "Synth", "o", "r", some ⟨[], 2, ""⟩, none, "", 0, 0, 0⟩
      1 8 ⟨[], 2, ""⟩ (by decide) rfl (by decide) (by decide) rfl
      (by intro u hu; simp at hu)).1).2 (by decide)

/-! ### Concrete session scenarios -/

/-- A Writer agent (phase 1) on the Anthropic provider. -/
def writerAgent : AgentConfig := ⟨"writer", "Writer", .anthropic, "m", [], true, 1⟩

/-- An Editor agent (phase 2) on the OpenAI provider. -/
def editorAgent : AgentConfig := ⟨"editor", "Editor", .openai, "m", [], true, 2⟩

/-- A second Editor agent (phase 2) on the Google provider. -/
def editorAgent2 : AgentConfig := ⟨"editor2", "Editor Two", .google, "m", [], true, 2⟩

/-- A Synthesizer agent (phase 3) on the Google provider. -/
def synthAgent : AgentConfig := ⟨"synthesizer", "Synth", .google, "m", [], true, 3⟩

/-- Oracles for a fault-free session: every provider configured, every
call succeeds with zero reported tokens, no cancellation, no pause. -/
def oraclesOk : Oracles :=
  { providerConfigured := fun _ => true,
    call := fun n => .ok ("out" ++ toString n) 0 0,
    cancelled := fun _ => false,
    paused := fun _ => false,
    pauseEndsCancelled := fun _ => false,
    parseEval := fun _ _ => (none, some "e"),
    extractContent := fun s => s }

/-- Oracles whose calls report 15000 input tokens (2 credits on an
unknown model). -/
def oraclesCostly : Oracles :=
  { oraclesOk with call := fun n => .ok ("out" ++ toString n) 15000 0 }

/-- One Writer plus two parallel Editors. -/
def cfgTwoEditors : SessionConfig :=
  ⟨"s", [writerAgent, editorAgent, editorAgent2], ⟨1, none⟩, "task", ""⟩

/-- **C6.** When a credit budget is configured and the remaining budget
before a phase-2 batch of `k` editors is below `2·k`, `runEditorBatch`
terminates the session at once: the state gains only the
`session_complete` event with reason "credit_depleted" (no editor
`agent_start`, no editor turn) and the outcome is the session-level
return.  Concretely: a budget of 3 of which the Writer consumed 2 leaves
1 remaining before a 2-editor batch, and the session ends with the
Writer's lone turn in history and a final `session_complete
"credit_depleted"` event. -/
theorem credit_depleted_before_editor_batch :
    (∀ (os : Oracles) (cfg : SessionConfig) (b : ℤ) (st : SchedState),
      b - st.session_credits_used < (phase2Agents cfg).length * 2 →
      runEditorBatch os cfg (some b) st
        = (emitEv { st with termination_reason := some "Insufficient credits" }
            (.session_complete "credit_depleted" st.current_round st.history.length),
          .sessionReturn))
    ∧ (run_streaming oraclesCostly cfgTwoEditors (some 3)).history.map
        (fun t => t.agent_id) = ["writer"]
    ∧ (run_streaming oraclesCostly cfgTwoEditors (some 3)).events
      = [.session_start 3, .round_start 1 false,
         .agent_start "writer" 1 1 1 false, .agent_complete "writer" 1 false,
         .credit_warning 1, .session_complete "credit_depleted" 1 1] := by
  refine ⟨?_, by with_unfolding_all rfl, by with_unfolding_all rfl⟩
  intro os cfg b st h
  unfold runEditorBatch
  simp [h]

/-- Witness for C6: the general batch-level statement applied at a
concrete state with 1 remaining credit before the 2-editor batch of
`cfgTwoEditors`. -/
theorem credit_depleted_before_editor_batch_witness :
    runEditorBatch oraclesCostly cfgTwoEditors (some 3)
      ({ history := [], current_round := 1, turn_number := 1,
         session_credits_used := 2, credit_warning_sent := true,
         editor_feedback := "", events := [], cancelReads := 2, pauseReads := 1,
         termination_reason := none } : SchedState)
      = (emitEv ({ history := [], current_round := 1, turn_number := 1,
                   session_credits_used := 2, credit_warning_sent := true,
                   editor_feedback := "", events := [], cancelReads := 2,
                   pauseReads := 1,
                   termination_reason := some "Insufficient credits" } : SchedState)
          (.session_complete "credit_depleted" 1 0), .sessionReturn) :=
  credit_depleted_before_editor_batch.1 oraclesCostly cfgTwoEditors 3 _
    (by decide)

/-! ### Structural lemmas about the scheduler steps -/

@[simp] theorem emitEv_history (st : SchedState) (e : StreamEvent) :
    (emitEv st e).history = st.history := rfl

@[simp] theorem emitEv_turn_number (st : SchedState) (e : StreamEvent) :
    (emitEv st e).turn_number = st.turn_number := rfl

@[simp] theorem emitEv_current_round (st : SchedState) (e : StreamEvent) :
    (emitEv st e).current_round = st.current_round := rfl

@[simp] theorem emitEv_termination_reason (st : SchedState) (e : StreamEvent) :
    (emitEv st e).termination_reason = st.termination_reason := rfl

@[simp] theorem creditWarningCheck_history (b : Option ℤ) (st : SchedState) :
    (creditWarningCheck b st).history = st.history := by
  unfold creditWarningCheck
  cases b with
  | none => rfl
  | some x =>
    dsimp only
    split <;> simp

@[simp] theorem creditWarningCheck_turn_number (b : Option ℤ) (st : SchedState) :
    (creditWarningCheck b st).turn_number = st.turn_number := by
  unfold creditWarningCheck
  cases b with
  | none => rfl
  | some x =>
    dsimp only
    split <;> simp

@[simp] theorem creditWarningCheck_current_round (b : Option ℤ) (st : SchedState) :
    (creditWarningCheck b st).current_round = st.current_round := by
  unfold creditWarningCheck
  cases b with
  | none => rfl
  | some x =>
    dsimp only
    split <;> simp

@[simp] theorem creditWarningCheck_termination_reason (b : Option ℤ) (st : SchedState) :
    (creditWarningCheck b st).termination_reason = st.termination_reason := by
  unfold creditWarningCheck
  cases b with
  | none => rfl
  | some x =>
    dsimp only
    split <;> simp

/-- The fields of `runOneSequentialAgent` that every branch treats the
same way: the turn counter is incremented before the provider is even
looked up, and the round counter and termination reason are untouched. -/
theorem runOneSequentialAgent_fields (os : Oracles) (cfg : SessionConfig)
    (b : Option ℤ) (st : SchedState) (a : AgentConfig) :
    (runOneSequentialAgent os cfg b st a).turn_number = st.turn_number + 1
    ∧ (runOneSequentialAgent os cfg b st a).current_round = st.current_round
    ∧ (runOneSequentialAgent os cfg b st a).termination_reason
      = st.termination_reason := by
  unfold runOneSequentialAgent
  split
  · simp
  · rcases h : os.call (st.turn_number + 1) with ⟨c, i, o⟩ | m
    · simp only [h]
      try dsimp only
      split
      · split <;> simp
      · simp
    · simp [h]

/-- The history delta of `runOneSequentialAgent`: either nothing is
recorded (missing provider / raised call), or exactly one turn is
appended, carrying the freshly assigned turn number, the agent's
identity, and the document produced by `_update_working_document`. -/
theorem runOneSequentialAgent_history (os : Oracles) (cfg : SessionConfig)
    (b : Option ℤ) (st : SchedState) (a : AgentConfig) :
    (runOneSequentialAgent os cfg b st a).history = st.history
    ∨ ∃ t : ExchangeTurn,
      (runOneSequentialAgent os cfg b st a).history = st.history ++ [t]
      ∧ t.turn_number = st.turn_number + 1
      ∧ t.agent_id = a.agent_id
      ∧ t.working_document = (if a.phase = 1 then t.output
          else getCurrentDocument cfg st.history) := by
  unfold runOneSequentialAgent
  split
  · left; simp
  · rcases h : os.call (st.turn_number + 1) with ⟨c, i, o⟩ | m
    · right
      refine ⟨buildTurn os a (st.turn_number + 1) st.current_round c i o
        (update_working_document cfg st.history a (os.extractContent c)),
        ?_, by simp, by simp, ?_⟩
      · simp only [h]
        try dsimp only
        split
        · split <;> simp
        · simp
      · simp [update_working_document]
    · left; simp [h]

/-- When the provider is configured and the call returns, the sequential
agent records exactly one turn. -/
theorem runOneSequentialAgent_history_ok (os : Oracles) (cfg : SessionConfig)
    (b : Option ℤ) (st : SchedState) (a : AgentConfig)
    (hprov : os.providerConfigured a.provider = true)
    (c : String) (i o : ℕ) (hcall : os.call (st.turn_number + 1) = .ok c i o) :
    ∃ t : ExchangeTurn,
      (runOneSequentialAgent os cfg b st a).history = st.history ++ [t]
      ∧ t.turn_number = st.turn_number + 1
      ∧ t.agent_id = a.agent_id := by
  unfold runOneSequentialAgent
  rw [if_neg (by simp [hprov])]
  refine ⟨buildTurn os a (st.turn_number + 1) st.current_round c i o
    (update_working_document cfg st.history a (os.extractContent c)),
    ?_, by simp, by simp⟩
  simp only [hcall]
  try dsimp only
  split
  · split <;> simp
  · simp

/-- An editor task's recorded turn, when present, is the `buildTurn` of
its assigned number over the pre-batch document. -/
theorem run_single_editor_turn (os : Oracles) (cfg : SessionConfig)
    (H : List ExchangeTurn) (cr : ℕ) (a : AgentConfig) (n : ℕ) :
    (run_single_editor_streaming os cfg H cr a n).turn = none
    ∨ ∃ c i o, os.call n = .ok c i o
      ∧ (run_single_editor_streaming os cfg H cr a n).turn
        = some (buildTurn os a n cr c i o (getCurrentDocument cfg H)) := by
  unfold run_single_editor_streaming
  split
  · left; rfl
  · rcases h : os.call n with ⟨c, i, o⟩ | m
    · right
      exact ⟨c, i, o, rfl, by simp⟩
    · left; simp

/-- With a configured provider and a returning call, the editor task's
turn is present. -/
theorem run_single_editor_turn_ok (os : Oracles) (cfg : SessionConfig)
    (H : List ExchangeTurn) (cr : ℕ) (a : AgentConfig) (n : ℕ)
    (hprov : os.providerConfigured a.provider = true)
    (c : String) (i o : ℕ) (hcall : os.call n = .ok c i o) :
    (run_single_editor_streaming os cfg H cr a n).turn
      = some (buildTurn os a n cr c i o (getCurrentDocument cfg H)) := by
  unfold run_single_editor_streaming
  rw [if_neg (by simp [hprov])]
  simp [hcall]

/-- Folding the batch results appends exactly the present turns, in task
order, and touches no other control field. -/
theorem editorFold_spec (results : List EditorResult) (st : SchedState) :
    (results.foldl editorFoldStep st).history
      = st.history ++ results.filterMap (fun r => r.turn)
    ∧ (results.foldl editorFoldStep st).turn_number = st.turn_number
    ∧ (results.foldl editorFoldStep st).current_round = st.current_round
    ∧ (results.foldl editorFoldStep st).termination_reason
      = st.termination_reason := by
  induction results generalizing st with
  | nil => simp
  | cons r rs ih =>
    have hstep : ∀ s : SchedState,
        (editorFoldStep s r).history = s.history ++ (r.turn.toList)
        ∧ (editorFoldStep s r).turn_number = s.turn_number
        ∧ (editorFoldStep s r).current_round = s.current_round
        ∧ (editorFoldStep s r).termination_reason = s.termination_reason := by
      intro s
      unfold editorFoldStep
      rcases r.turn with _ | t <;> rcases r.usage with _ | u <;> simp
    obtain ⟨h1, h2, h3, h4⟩ := ih (editorFoldStep st r)
    obtain ⟨g1, g2, g3, g4⟩ := hstep st
    refine ⟨?_, by rw [List.foldl_cons, h2, g2],
      by rw [List.foldl_cons, h3, g3], by rw [List.foldl_cons, h4, g4]⟩
    rw [List.foldl_cons, h1, g1]
    rcases ht : r.turn with _ | t <;> simp [ht, List.append_assoc]

theorem assignEditorNumbers_keys (ags : List AgentConfig) :
    ∀ s : ℕ, (assignEditorNumbers ags s).map Prod.fst
      = ags.map (fun a => a.agent_id) := by
  induction ags with
  | nil => intro s; rfl
  | cons a rest ih =>
    intro s
    simp only [assignEditorNumbers, List.map_cons, ih (s + 1)]

/-- Looking a tail agent's id up in the full dict gives the same number
as looking it up in the dict built from the tail alone: its last binding
lies in the tail. -/
theorem dictGet_cons_mem (a : AgentConfig) (rest : List AgentConfig)
    (s d : ℕ) (k : String) (hk : k ∈ rest.map (fun x => x.agent_id)) :
    dictGet (assignEditorNumbers (a :: rest) s) k d
      = dictGet (assignEditorNumbers rest (s + 1)) k d := by
  unfold dictGet
  have hrev : (assignEditorNumbers (a :: rest) s).reverse
      = (assignEditorNumbers rest (s + 1)).reverse ++ [(a.agent_id, s + 1)] := by
    simp [assignEditorNumbers]
  rw [hrev, List.find?_append]
  have hsome : ((assignEditorNumbers rest (s + 1)).reverse.find?
      (fun p => p.1 = k)).isSome := by
    rw [List.find?_isSome]
    have hkeys : k ∈ (assignEditorNumbers rest (s + 1)).map Prod.fst := by
      rw [assignEditorNumbers_keys]
      exact hk
    rw [List.mem_map] at hkeys
    obtain ⟨p, hp, hpk⟩ := hkeys
    exact ⟨p, List.mem_reverse.mpr hp, by simpa using hpk⟩
  rcases hfind : (assignEditorNumbers rest (s + 1)).reverse.find?
      (fun p => p.1 = k) with _ | p
  · rw [hfind] at hsome
    simp at hsome
  · simp [hfind]

/-- With its id unbound in the tail, the head editor's lookup returns
the number the loop bound to it. -/
theorem dictGet_cons_self (a : AgentConfig) (rest : List AgentConfig)
    (s d : ℕ) (hk : a.agent_id ∉ rest.map (fun x => x.agent_id)) :
    dictGet (assignEditorNumbers (a :: rest) s) a.agent_id d = s + 1 := by
  unfold dictGet
  have hrev : (assignEditorNumbers (a :: rest) s).reverse
      = (assignEditorNumbers rest (s + 1)).reverse ++ [(a.agent_id, s + 1)] := by
    simp [assignEditorNumbers]
  rw [hrev, List.find?_append]
  have hnone : ((assignEditorNumbers rest (s + 1)).reverse.find?
      (fun p => p.1 = a.agent_id)) = none := by
    rw [List.find?_eq_none]
    intro p hp
    simp only [decide_eq_true_eq]
    intro hpk
    apply hk
    have hkeys : p.1 ∈ (assignEditorNumbers rest (s + 1)).map Prod.fst :=
      List.mem_map.mpr ⟨p, List.mem_reverse.mp hp, rfl⟩
    rw [assignEditorNumbers_keys] at hkeys
    rw [hpk] at hkeys
    exact hkeys
  rw [hnone]
  simp [List.find?]

/-- Every number the dict hands out lies in `(s, s + |ags|]`. -/
theorem dictGet_assign_bounds :
    ∀ (ags : List AgentConfig) (s : ℕ) (k : String),
    k ∈ ags.map (fun x => x.agent_id) →
    s < dictGet (assignEditorNumbers ags s) k 0
    ∧ dictGet (assignEditorNumbers ags s) k 0 ≤ s + ags.length := by
  intro ags
  induction ags with
  | nil =>
    intro s k hk
    simp at hk
  | cons a rest ih =>
    intro s k hk
    by_cases hmem : k ∈ rest.map (fun x => x.agent_id)
    · rw [dictGet_cons_mem a rest s 0 k hmem]
      obtain ⟨h1, h2⟩ := ih (s + 1) k hmem
      refine ⟨by omega, ?_⟩
      simp only [List.length_cons]
      omega
    · have hka : k = a.agent_id := by
        rcases List.mem_map.mp hk with ⟨x, hx, hxk⟩
        rcases List.mem_cons.mp hx with rfl | hx'
        · exact hxk.symm
        · exact absurd (List.mem_map.mpr ⟨x, hx', hxk⟩) hmem
      subst hka
      rw [dictGet_cons_self a rest s 0 hmem]
      simp only [List.length_cons]
      omega

/-- Peeling one editor off a batch: the head task runs with its dict
lookup, and the tail tasks see the same numbers as the batch over the
tail alone started one counter step later. -/
theorem editorResults_cons (os : Oracles) (cfg : SessionConfig)
    (H : List ExchangeTurn) (cr : ℕ) (a : AgentConfig)
    (rest : List AgentConfig) (s : ℕ) :
    editorResults os cfg H cr (a :: rest) s
      = run_single_editor_streaming os cfg H cr a
          (dictGet (assignEditorNumbers (a :: rest) s) a.agent_id 0)
        :: editorResults os cfg H cr rest (s + 1) := by
  unfold editorResults
  simp only [List.map_cons]
  congr 1
  apply List.map_congr_left
  intro b hb
  rw [dictGet_cons_mem a rest s 0 b.agent_id (List.mem_map.mpr ⟨b, hb, rfl⟩)]

/-- Per-turn facts about a batch's appended turns, for any oracle and
any id multiset: each carries a number in `(s, s + |ags|]`, the
pre-batch document, and the identity of one of the batch's agents. -/
theorem editorTurns_spec (os : Oracles) (cfg : SessionConfig)
    (H : List ExchangeTurn) (cr : ℕ) :
    ∀ (ags : List AgentConfig) (s : ℕ),
    ∀ t ∈ editorTurns os cfg H cr ags s,
      s < t.turn_number ∧ t.turn_number ≤ s + ags.length
      ∧ t.working_document = getCurrentDocument cfg H
      ∧ ∃ a, a ∈ ags ∧ t.agent_id = a.agent_id := by
  intro ags
  induction ags with
  | nil => intro s t ht; simp [editorTurns, editorResults] at ht
  | cons a rest ih =>
    intro s t htmem
    have hbounds := dictGet_assign_bounds (a :: rest) s a.agent_id
      (List.mem_map.mpr ⟨a, List.mem_cons_self a rest, rfl⟩)
    have hunf : editorTurns os cfg H cr (a :: rest) s
        = (run_single_editor_streaming os cfg H cr a
            (dictGet (assignEditorNumbers (a :: rest) s) a.agent_id 0)).turn.toList
          ++ editorTurns os cfg H cr rest (s + 1) := by
      unfold editorTurns
      rw [editorResults_cons]
      rcases ht : (run_single_editor_streaming os cfg H cr a
          (dictGet (assignEditorNumbers (a :: rest) s) a.agent_id 0)).turn
        with _ | u <;> simp [ht]
    rw [hunf] at htmem
    rcases List.mem_append.mp htmem with hmem | hmem
    · rcases run_single_editor_turn os cfg H cr a
          (dictGet (assignEditorNumbers (a :: rest) s) a.agent_id 0)
        with hn | ⟨c, i, o, _, hsome⟩
      · rw [hn] at hmem
        simp at hmem
      · rw [hsome] at hmem
        simp at hmem
        subst hmem
        refine ⟨by simpa using hbounds.1, by simpa using hbounds.2, by simp,
          a, List.mem_cons_self a rest, by simp⟩
    · obtain ⟨f1, f2, f3, a', ha', hid⟩ := ih (s + 1) t hmem
      exact ⟨by omega, by simp only [List.length_cons]; omega, f3, a',
        List.mem_cons_of_mem a ha', hid⟩

/-- With the batch's agent ids distinct, the appended turns carry
strictly increasing numbers, whatever the oracle does. -/
theorem editorTurns_chain (os : Oracles) (cfg : SessionConfig)
    (H : List ExchangeTurn) (cr : ℕ) :
    ∀ (ags : List AgentConfig) (s : ℕ),
    (ags.map (fun a => a.agent_id)).Nodup →
    List.Chain' (· < ·)
      ((editorTurns os cfg H cr ags s).map (fun t => t.turn_number)) := by
  intro ags
  induction ags with
  | nil => intro s _; simp [editorTurns, editorResults]
  | cons a rest ih =>
    intro s hnd
    rw [List.map_cons, List.nodup_cons] at hnd
    have hnum : dictGet (assignEditorNumbers (a :: rest) s) a.agent_id 0 = s + 1 :=
      dictGet_cons_self a rest s 0 hnd.1
    have hunf : editorTurns os cfg H cr (a :: rest) s
        = (run_single_editor_streaming os cfg H cr a (s + 1)).turn.toList
          ++ editorTurns os cfg H cr rest (s + 1) := by
      unfold editorTurns
      rw [editorResults_cons, hnum]
      rcases ht : (run_single_editor_streaming os cfg H cr a (s + 1)).turn
        with _ | u <;> simp [ht]
    rw [hunf]
    rcases hcase : (run_single_editor_streaming os cfg H cr a (s + 1)).turn
      with _ | u
    · simpa using ih (s + 1) hnd.2
    · have hu : u.turn_number = s + 1 := by
        rcases run_single_editor_turn os cfg H cr a (s + 1)
          with hn | ⟨c, i, o, _, hsome⟩
        · rw [hn] at hcase
          cases hcase
        · rw [hsome] at hcase
          cases hcase
          simp
      simp only [Option.toList_some, List.singleton_append, List.map_cons]
      rw [List.chain'_cons']
      refine ⟨?_, ih (s + 1) hnd.2⟩
      intro y hy
      have hmem := List.mem_of_mem_head? hy
      rw [List.mem_map] at hmem
      obtain ⟨tt, htt, rfl⟩ := hmem
      have := (editorTurns_spec os cfg H cr rest (s + 1) tt htt).1
      omega

/-- With distinct ids, every provider configured and every call
returning, a batch records one turn per editor, numbered
`s+1, …, s+|ags|`. -/
theorem editorTurns_ok (os : Oracles) (cfg : SessionConfig)
    (H : List ExchangeTurn) (cr : ℕ)
    (hprov : ∀ p, os.providerConfigured p = true)
    (hcall : ∀ n, ∃ c i o, os.call n = .ok c i o) :
    ∀ (ags : List AgentConfig) (s : ℕ),
    (ags.map (fun a => a.agent_id)).Nodup →
    (editorTurns os cfg H cr ags s).map (fun t => t.turn_number)
      = List.range' (s + 1) ags.length := by
  intro ags
  induction ags with
  | nil => intro s _; simp [editorTurns, editorResults]
  | cons a rest ih =>
    intro s hnd
    rw [List.map_cons, List.nodup_cons] at hnd
    have hnum : dictGet (assignEditorNumbers (a :: rest) s) a.agent_id 0 = s + 1 :=
      dictGet_cons_self a rest s 0 hnd.1
    obtain ⟨c, i, o, hc⟩ := hcall (s + 1)
    have hsome := run_single_editor_turn_ok os cfg H cr a (s + 1)
      (hprov a.provider) c i o hc
    have hunf : editorTurns os cfg H cr (a :: rest) s
        = (run_single_editor_streaming os cfg H cr a (s + 1)).turn.toList
          ++ editorTurns os cfg H cr rest (s + 1) := by
      unfold editorTurns
      rw [editorResults_cons, hnum]
      rcases ht : (run_single_editor_streaming os cfg H cr a (s + 1)).turn
        with _ | t <;> simp [ht]
    rw [hunf, hsome]
    simp only [Option.toList_some, List.singleton_append, List.map_cons,
      buildTurn_turn_number, List.length_cons]
    rw [ih (s + 1) hnd.2, List.range'_succ]

/-- With every provider configured and every call returning, a batch
records exactly one turn per editor task, whatever the ids are. -/
theorem editorTurns_length_ok (os : Oracles) (cfg : SessionConfig)
    (H : List ExchangeTurn) (cr : ℕ)
    (hprov : ∀ p, os.providerConfigured p = true)
    (hcall : ∀ n, ∃ c i o, os.call n = .ok c i o) :
    ∀ (ags : List AgentConfig) (s : ℕ),
    (editorTurns os cfg H cr ags s).length = ags.length := by
  intro ags
  induction ags with
  | nil => intro s; simp [editorTurns, editorResults]
  | cons a rest ih =>
    intro s
    obtain ⟨c, i, o, hc⟩ := hcall
      (dictGet (assignEditorNumbers (a :: rest) s) a.agent_id 0)
    have hsome := run_single_editor_turn_ok os cfg H cr a
      (dictGet (assignEditorNumbers (a :: rest) s) a.agent_id 0)
      (hprov a.provider) c i o hc
    have htail := ih (s + 1)
    unfold editorTurns
    rw [editorResults_cons]
    simp only [List.filterMap_cons, hsome, List.length_cons]
    unfold editorTurns at htail
    omega

/-! ### The turn-number invariant (C1) -/

/-- The two always-true facts about recorded turn numbers: strictly
increasing along the history, and bounded by the scheduler's counter. -/
def TurnInv (st : SchedState) : Prop :=
  List.Chain' (· < ·) (st.history.map (fun t => t.turn_number))
  ∧ ∀ t ∈ st.history, t.turn_number ≤ st.turn_number

theorem turnInv_append (st st' : SchedState) (ts : List ExchangeTurn)
    (hinv : TurnInv st)
    (hh : st'.history = st.history ++ ts)
    (htn : st.turn_number ≤ st'.turn_number)
    (hts : ∀ t ∈ ts, st.turn_number < t.turn_number
      ∧ t.turn_number ≤ st'.turn_number)
    (hchain : List.Chain' (· < ·) (ts.map (fun t => t.turn_number))) :
    TurnInv st' := by
  constructor
  · rw [hh, List.map_append, List.chain'_append]
    refine ⟨hinv.1, hchain, ?_⟩
    intro x hx y hy
    have hxmem := List.mem_of_mem_getLast? hx
    have hymem := List.mem_of_mem_head? hy
    rw [List.mem_map] at hxmem hymem
    obtain ⟨t, ht, rfl⟩ := hxmem
    obtain ⟨u, hu, rfl⟩ := hymem
    have h1 := hinv.2 t ht
    have h2 := (hts u hu).1
    omega
  · intro t ht
    rw [hh] at ht
    rcases List.mem_append.mp ht with h | h
    · exact le_trans (hinv.2 t h) htn
    · exact (hts t h).2

theorem turnInv_runOneSequentialAgent (os : Oracles) (cfg : SessionConfig)
    (b : Option ℤ) (st : SchedState) (a : AgentConfig) (hinv : TurnInv st) :
    TurnInv (runOneSequentialAgent os cfg b st a) := by
  obtain ⟨htn, _, _⟩ := runOneSequentialAgent_fields os cfg b st a
  rcases runOneSequentialAgent_history os cfg b st a with hh | ⟨t, hh, hnum, _, _⟩
  · exact ⟨by rw [TurnInv, hh] at *; exact hinv.1,
      fun t ht => by rw [hh] at ht; rw [htn]; exact le_trans (hinv.2 t ht) (by omega)⟩
  · exact turnInv_append st _ [t] hinv hh (by omega)
      (by intro u hu; simp at hu; subst hu; omega) (by simp)

/-- `TurnInv` only inspects the history and the turn counter. -/
theorem turnInv_of_eq (st st₀ : SchedState) (h : TurnInv st₀)
    (h1 : st.history = st₀.history) (h2 : st.turn_number = st₀.turn_number) :
    TurnInv st := by
  refine ⟨by rw [h1]; exact h.1, fun t ht => ?_⟩
  rw [h1] at ht
  rw [h2]
  exact h.2 t ht

theorem turnInv_runSequentialAgents (os : Oracles) (cfg : SessionConfig)
    (b : Option ℤ) :
    ∀ (ags : List AgentConfig) (st : SchedState), TurnInv st →
    TurnInv (runSequentialAgents os cfg b st ags).1
    ∧ st.turn_number ≤ (runSequentialAgents os cfg b st ags).1.turn_number := by
  intro ags
  induction ags with
  | nil => intro st hinv; exact ⟨hinv, le_refl _⟩
  | cons a rest ih =>
    intro st hinv
    have hinv' : TurnInv (afterCancelRead st) := turnInv_of_eq _ st hinv rfl rfl
    unfold runSequentialAgents
    dsimp only
    split
    · exact ⟨turnInv_of_eq _ st hinv rfl rfl, le_refl _⟩
    · split
      · exact ⟨turnInv_of_eq _ st hinv rfl rfl, le_refl _⟩
      · have h1 := turnInv_runOneSequentialAgent os cfg b (afterCancelRead st) a hinv'
        obtain ⟨htn, _, _⟩ := runOneSequentialAgent_fields os cfg b
          (afterCancelRead st) a
        obtain ⟨h2, h3⟩ := ih _ h1
        refine ⟨h2, ?_⟩
        rw [afterCancelRead_turn_number] at htn
        omega

theorem turnInv_runEditorBatch (os : Oracles) (cfg : SessionConfig)
    (b : Option ℤ) (st : SchedState)
    (hids : ((phase2Agents cfg).map (fun a => a.agent_id)).Nodup)
    (hinv : TurnInv st) :
    TurnInv (runEditorBatch os cfg b st).1
    ∧ st.turn_number ≤ (runEditorBatch os cfg b st).1.turn_number := by
  unfold runEditorBatch
  dsimp only
  split
  · exact ⟨turnInv_of_eq _ st hinv rfl rfl, le_refl _⟩
  · obtain ⟨hf1, hf2, hf3, hf4⟩ := editorFold_spec
      (editorResults os cfg st.history st.current_round (phase2Agents cfg)
        st.turn_number) _
    have hspec := editorTurns_spec os cfg st.history
      st.current_round (phase2Agents cfg) st.turn_number
    have hchain := editorTurns_chain os cfg st.history
      st.current_round (phase2Agents cfg) st.turn_number hids
    constructor
    · refine turnInv_append st _
        (editorTurns os cfg st.history st.current_round (phase2Agents cfg)
          st.turn_number) hinv ?_ ?_ ?_ hchain
      · simp only [creditWarningCheck_history]
        rw [hf1]
        rfl
      · simp only [creditWarningCheck_turn_number]
        rw [hf2]
        simp
      · intro t ht
        obtain ⟨e1, e2, _, _⟩ := hspec t ht
        simp only [creditWarningCheck_turn_number]
        rw [hf2]
        constructor
        · omega
        · simpa using e2
    · simp only [creditWarningCheck_turn_number]
      rw [hf2]
      simp

theorem turnInv_runFinalPass (os : Oracles) (cfg : SessionConfig)
    (st : SchedState) (hinv : TurnInv st) :
    TurnInv (runFinalPass os cfg st)
    ∧ st.turn_number ≤ (runFinalPass os cfg st).turn_number := by
  unfold runFinalPass
  split
  · exact ⟨hinv, le_refl _⟩
  · dsimp only
    split
    · exact ⟨turnInv_of_eq _ st hinv rfl rfl, le_refl _⟩
    · split
      · refine ⟨⟨?_, fun t ht => ?_⟩, by simp⟩
        · exact hinv.1
        · simp only [emitEv_turn_number] at *
          exact le_trans (hinv.2 t ht) (by simp)
      · rename_i writer tl heq hnc hprovOk
        rcases hc : os.call ((afterCancelRead st).turn_number + 1)
          with ⟨c, i, o⟩ | m
        · simp only [hc]
          try dsimp only
          refine ⟨turnInv_append st _
            [buildTurn os writer ((afterCancelRead st).turn_number + 1)
              (afterCancelRead st).current_round c i o
              (update_working_document cfg (afterCancelRead st).history writer
                (os.extractContent c))]
            hinv (by simp) (by simp) ?_ (by simp), by simp⟩
          intro u hu
          simp at hu
          subst hu
          simp
        · simp only [hc]
          refine ⟨⟨hinv.1, fun t ht => ?_⟩, by simp⟩
          exact le_trans (hinv.2 t ht) (by simp)

theorem turnInv_runPhaseLoop (os : Oracles) (cfg : SessionConfig)
    (b : Option ℤ)
    (hids : ((phase2Agents cfg).map (fun a => a.agent_id)).Nodup) :
    ∀ (ps : List ℤ) (st : SchedState), TurnInv st →
    TurnInv (runPhaseLoop os cfg b ps st).1
    ∧ st.turn_number ≤ (runPhaseLoop os cfg b ps st).1.turn_number := by
  intro ps
  induction ps with
  | nil => intro st hinv; exact ⟨hinv, le_refl _⟩
  | cons p rest ih =>
    intro st hinv
    have hinv' : TurnInv (afterCancelRead st) := turnInv_of_eq _ st hinv rfl rfl
    unfold runPhaseLoop
    dsimp only
    split
    · exact ⟨turnInv_of_eq _ st hinv rfl rfl, le_refl _⟩
    · split
      · obtain ⟨hb1, hb2⟩ := turnInv_runEditorBatch os cfg b (afterCancelRead st)
          hids hinv'
        rcases hmb : runEditorBatch os cfg b (afterCancelRead st) with ⟨st₁, oc⟩
        rw [hmb] at hb1 hb2
        rw [afterCancelRead_turn_number] at hb2
        cases oc
        · dsimp only
          obtain ⟨h2, h3⟩ := ih st₁ hb1
          exact ⟨h2, le_trans hb2 h3⟩
        · exact ⟨hb1, hb2⟩
      · obtain ⟨hs1, hs2⟩ := turnInv_runSequentialAgents os cfg b
          (if p = 1 then phase1Agents cfg else if p = 2 then []
            else phase3Agents cfg) (afterCancelRead st) hinv'
        rcases hms : runSequentialAgents os cfg b (afterCancelRead st)
            (if p = 1 then phase1Agents cfg else if p = 2 then []
              else phase3Agents cfg) with ⟨st₁, oc⟩
        rw [hms] at hs1 hs2
        rw [afterCancelRead_turn_number] at hs2
        cases oc
        · dsimp only
          split
          · exact ⟨turnInv_of_eq _ st₁ hs1 rfl rfl, hs2⟩
          · obtain ⟨h2, h3⟩ := ih (afterCancelRead st₁)
              (turnInv_of_eq _ st₁ hs1 rfl rfl)
            rw [afterCancelRead_turn_number] at h3
            exact ⟨h2, le_trans hs2 h3⟩
        · exact ⟨hs1, hs2⟩

theorem turnInv_runRounds (os : Oracles) (cfg : SessionConfig)
    (b : Option ℤ)
    (hids : ((phase2Agents cfg).map (fun a => a.agent_id)).Nodup) :
    ∀ (fuel : ℕ) (st : SchedState), TurnInv st →
    TurnInv (runRounds os cfg b fuel st) := by
  intro fuel
  induction fuel with
  | zero => intro st hinv; exact hinv
  | succ n ih =>
    intro st hinv
    have hinv' : TurnInv (startRound (afterCancelRead st)) :=
      turnInv_of_eq _ st hinv rfl rfl
    unfold runRounds
    dsimp only
    split
    · exact turnInv_of_eq _ st hinv rfl rfl
    · obtain ⟨hp1, hp2⟩ := turnInv_runPhaseLoop os cfg b hids [1, 2, 3]
        (startRound (afterCancelRead st)) hinv'
      rcases hmp : runPhaseLoop os cfg b [1, 2, 3]
          (startRound (afterCancelRead st)) with ⟨st₁, oc⟩
      rw [hmp] at hp1 hp2
      cases oc
      · dsimp only
        split
        · exact turnInv_of_eq _ st₁ hp1 rfl rfl
        · split
          · rename_i reasonv heq
            have hq := turnInv_runFinalPass os cfg
              { emitEv (afterCancelRead st₁)
                  (.round_complete (afterCancelRead st₁).current_round) with
                termination_reason := some reasonv }
              (turnInv_of_eq _ st₁ hp1 rfl rfl)
            exact turnInv_of_eq _ _ hq.1 rfl rfl
          · exact ih _ (turnInv_of_eq _ st₁ hp1 rfl rfl)
      · exact hp1

/-- The gapless-numbering invariant that holds while every invocation
succeeds: the recorded numbers are exactly `1, …, turn_number`. -/
def SuccInv (st : SchedState) : Prop :=
  st.history.map (fun t => t.turn_number) = List.range' 1 st.turn_number

theorem succInv_of_eq (st st₀ : SchedState) (h : SuccInv st₀)
    (h1 : st.history = st₀.history) (h2 : st.turn_number = st₀.turn_number) :
    SuccInv st := by
  rw [SuccInv, h1, h2]
  exact h

theorem succInv_append_range (st st' : SchedState) (ts : List ExchangeTurn)
    (h : SuccInv st)
    (hh : st'.history = st.history ++ ts)
    (hts : ts.map (fun t => t.turn_number)
      = List.range' (st.turn_number + 1) ts.length)
    (htn : st'.turn_number = st.turn_number + ts.length) :
    SuccInv st' := by
  rw [SuccInv, hh, List.map_append, h, hts, htn]
  have := List.range'_append_1 1 st.turn_number ts.length
  rw [Nat.add_comm 1 st.turn_number] at this
  rw [this, Nat.add_comm ts.length st.turn_number]

theorem succInv_runOneSequentialAgent (os : Oracles) (cfg : SessionConfig)
    (b : Option ℤ) (st : SchedState) (a : AgentConfig)
    (hprov : ∀ p, os.providerConfigured p = true)
    (hcall : ∀ n, ∃ c i o, os.call n = .ok c i o)
    (h : SuccInv st) :
    SuccInv (runOneSequentialAgent os cfg b st a) := by
  obtain ⟨c, i, o, hc⟩ := hcall (st.turn_number + 1)
  obtain ⟨t, hh, hnum, _⟩ := runOneSequentialAgent_history_ok os cfg b st a
    (hprov a.provider) c i o hc
  obtain ⟨htn, _, _⟩ := runOneSequentialAgent_fields os cfg b st a
  refine succInv_append_range st _ [t] h hh ?_ (by rw [htn]; simp)
  simp [hnum, List.range']

theorem succInv_runSequentialAgents (os : Oracles) (cfg : SessionConfig)
    (b : Option ℤ)
    (hprov : ∀ p, os.providerConfigured p = true)
    (hcall : ∀ n, ∃ c i o, os.call n = .ok c i o) :
    ∀ (ags : List AgentConfig) (st : SchedState), SuccInv st →
    SuccInv (runSequentialAgents os cfg b st ags).1 := by
  intro ags
  induction ags with
  | nil => intro st h; exact h
  | cons a rest ih =>
    intro st h
    have h' : SuccInv (afterCancelRead st) := succInv_of_eq _ st h rfl rfl
    unfold runSequentialAgents
    dsimp only
    split
    · exact succInv_of_eq _ st h rfl rfl
    · split
      · exact succInv_of_eq _ st h rfl rfl
      · exact ih _ (succInv_runOneSequentialAgent os cfg b (afterCancelRead st)
          a hprov hcall h')

theorem succInv_runEditorBatch (os : Oracles) (cfg : SessionConfig)
    (b : Option ℤ) (st : SchedState)
    (hids : ((phase2Agents cfg).map (fun a => a.agent_id)).Nodup)
    (hprov : ∀ p, os.providerConfigured p = true)
    (hcall : ∀ n, ∃ c i o, os.call n = .ok c i o)
    (h : SuccInv st) :
    SuccInv (runEditorBatch os cfg b st).1 := by
  unfold runEditorBatch
  dsimp only
  split
  · exact succInv_of_eq _ st h rfl rfl
  · obtain ⟨hf1, hf2, hf3, hf4⟩ := editorFold_spec
      (editorResults os cfg st.history st.current_round (phase2Agents cfg)
        st.turn_number) _
    have hnums := editorTurns_ok os cfg st.history st.current_round hprov hcall
      (phase2Agents cfg) st.turn_number hids
    have hlen : (editorTurns os cfg st.history st.current_round
        (phase2Agents cfg) st.turn_number).length = (phase2Agents cfg).length := by
      have := congrArg List.length hnums
      simpa using this
    refine succInv_append_range st _
      (editorTurns os cfg st.history st.current_round (phase2Agents cfg)
        st.turn_number) h ?_ ?_ ?_
    · simp only [creditWarningCheck_history]
      rw [hf1]
      rfl
    · rw [hnums, hlen]
    · simp only [creditWarningCheck_turn_number]
      rw [hf2, hlen]

theorem succInv_runFinalPass (os : Oracles) (cfg : SessionConfig)
    (st : SchedState)
    (hprov : ∀ p, os.providerConfigured p = true)
    (hcall : ∀ n, ∃ c i o, os.call n = .ok c i o)
    (h : SuccInv st) :
    SuccInv (runFinalPass os cfg st) := by
  unfold runFinalPass
  split
  · exact h
  · dsimp only
    split
    · exact succInv_of_eq _ st h rfl rfl
    · rename_i writer tl heq hnc
      rw [if_neg (by simp [hprov])]
      obtain ⟨c, i, o, hc⟩ := hcall ((afterCancelRead st).turn_number + 1)
      simp only [hc]
      try dsimp only
      refine succInv_append_range st _
        [buildTurn os writer ((afterCancelRead st).turn_number + 1)
          (afterCancelRead st).current_round c i o
          (update_working_document cfg (afterCancelRead st).history writer
            (os.extractContent c))] h (by simp) ?_ (by simp)
      simp [List.range']

theorem succInv_runPhaseLoop (os : Oracles) (cfg : SessionConfig)
    (b : Option ℤ)
    (hids : ((phase2Agents cfg).map (fun a => a.agent_id)).Nodup)
    (hprov : ∀ p, os.providerConfigured p = true)
    (hcall : ∀ n, ∃ c i o, os.call n = .ok c i o) :
    ∀ (ps : List ℤ) (st : SchedState), SuccInv st →
    SuccInv (runPhaseLoop os cfg b ps st).1 := by
  intro ps
  induction ps with
  | nil => intro st h; exact h
  | cons p rest ih =>
    intro st h
    have h' : SuccInv (afterCancelRead st) := succInv_of_eq _ st h rfl rfl
    unfold runPhaseLoop
    dsimp only
    split
    · exact succInv_of_eq _ st h rfl rfl
    · split
      · have hb := succInv_runEditorBatch os cfg b (afterCancelRead st)
          hids hprov hcall h'
        rcases hmb : runEditorBatch os cfg b (afterCancelRead st) with ⟨st₁, oc⟩
        rw [hmb] at hb
        cases oc
        · exact ih st₁ hb
        · exact hb
      · have hs := succInv_runSequentialAgents os cfg b hprov hcall
          (if p = 1 then phase1Agents cfg else if p = 2 then []
            else phase3Agents cfg) (afterCancelRead st) h'
        rcases hms : runSequentialAgents os cfg b (afterCancelRead st)
            (if p = 1 then phase1Agents cfg else if p = 2 then []
              else phase3Agents cfg) with ⟨st₁, oc⟩
        rw [hms] at hs
        cases oc
        · dsimp only
          split
          · exact succInv_of_eq _ st₁ hs rfl rfl
          · exact ih _ (succInv_of_eq _ st₁ hs rfl rfl)
        · exact hs

theorem succInv_runRounds (os : Oracles) (cfg : SessionConfig)
    (b : Option ℤ)
    (hids : ((phase2Agents cfg).map (fun a => a.agent_id)).Nodup)
    (hprov : ∀ p, os.providerConfigured p = true)
    (hcall : ∀ n, ∃ c i o, os.call n = .ok c i o) :
    ∀ (fuel : ℕ) (st : SchedState), SuccInv st →
    SuccInv (runRounds os cfg b fuel st) := by
  intro fuel
  induction fuel with
  | zero => intro st h; exact h
  | succ n ih =>
    intro st h
    have h' : SuccInv (startRound (afterCancelRead st)) :=
      succInv_of_eq _ st h rfl rfl
    unfold runRounds
    dsimp only
    split
    · exact succInv_of_eq _ st h rfl rfl
    · have hp := succInv_runPhaseLoop os cfg b hids hprov hcall [1, 2, 3]
        (startRound (afterCancelRead st)) h'
      rcases hmp : runPhaseLoop os cfg b [1, 2, 3]
          (startRound (afterCancelRead st)) with ⟨st₁, oc⟩
      rw [hmp] at hp
      cases oc
      · dsimp only
        split
        · exact succInv_of_eq _ st₁ hp rfl rfl
        · split
          · rename_i reasonv hr
            have hq := succInv_runFinalPass os cfg
              { emitEv (afterCancelRead st₁)
                  (.round_complete (afterCancelRead st₁).current_round) with
                termination_reason := some reasonv } hprov hcall
              (succInv_of_eq _ st₁ hp rfl rfl)
            exact succInv_of_eq _ _ hq rfl rfl
          · exact ih _ (succInv_of_eq _ st₁ hp rfl rfl)
      · exact hp

/-- Oracles identical to `oraclesOk` except that no OpenAI provider is
configured, so every OpenAI agent's invocation is skipped after the turn
counter has been incremented. -/
def oraclesNoOpenai : Oracles :=
  { oraclesOk with
    providerConfigured := fun p => match p with
      | .openai => false
      | _ => true }

/-- A Writer (phase 1), an OpenAI Editor (phase 2) and a Synthesizer
(phase 3), one round. -/
def cfgWriterEditorSynth : SessionConfig :=
  ⟨"s", [writerAgent, editorAgent, synthAgent], ⟨1, none⟩, "task", ""⟩

/-- A second Editor sharing the first Editor's `agent_id`. -/
def editorAgentDup : AgentConfig := ⟨"editor", "Editor B", .google, "m", [], true, 2⟩

/-- A Writer plus two phase-2 Editors with the same `agent_id`. -/
def cfgDupEditors : SessionConfig :=
  ⟨"s", [writerAgent, editorAgent, editorAgentDup], ⟨1, none⟩, "task", ""⟩

/-- **C1 (amended).** When the active phase-2 editors carry pairwise
distinct `agent_id`s, the turn numbers of the recorded
`exchange_history` are strictly increasing for every session the
scheduler runs — any oracle, any phase structure, any parallelism, any
failures — and they are contiguous (exactly `1, 2, …, len`) whenever in
addition every agent's provider is configured and no provider call
raises.  Both provisos are necessary, as
`turn_numbers_contiguity_counterexample` shows: a failed invocation
consumes a number without recording a turn (the counter is incremented
before the provider lookup), leaving a gap; and editors sharing an
`agent_id` all look their number up under the same key of the
`editor_turn_numbers` dict, so they record the same number and the
history is not even strictly increasing. -/
theorem turn_numbers_strict_mono_and_contiguous :
    (∀ (os : Oracles) (cfg : SessionConfig) (b : Option ℤ),
      ((phase2Agents cfg).map (fun a => a.agent_id)).Nodup →
      List.Chain' (· < ·)
        ((run_streaming os cfg b).history.map (fun t => t.turn_number)))
    ∧ (∀ (os : Oracles) (cfg : SessionConfig) (b : Option ℤ),
      ((phase2Agents cfg).map (fun a => a.agent_id)).Nodup →
      (∀ p, os.providerConfigured p = true) →
      (∀ n, ∃ c i o, os.call n = CallResult.ok c i o) →
      (run_streaming os cfg b).history.map (fun t => t.turn_number)
        = List.range' 1 (run_streaming os cfg b).history.length) := by
  constructor
  · intro os cfg b hids
    rw [run_streaming]
    dsimp only
    split
    · simp [emitEv]
    · have h := turnInv_runRounds os cfg b hids (cfg.termination.max_rounds + 1)
        (emitEv ⟨[], 0, 0, 0, false, "", [], 0, 0, none⟩
          (.session_start (phase1Agents cfg ++ phase2Agents cfg
            ++ phase3Agents cfg).length))
        ⟨by simp [emitEv], by simp [emitEv]⟩
      exact h.1
  · intro os cfg b hids hprov hcall
    have hs : SuccInv (run_streaming os cfg b) := by
      rw [run_streaming]
      dsimp only
      split
      · simp [SuccInv, emitEv]
      · exact succInv_runRounds os cfg b hids hprov hcall _ _
          (by simp [SuccInv, emitEv])
    have hlen : (run_streaming os cfg b).history.length
        = (run_streaming os cfg b).turn_number := by
      have := congrArg List.length hs
      simpa using this
    rw [SuccInv] at hs
    rw [hs, hlen]

/-- Counterexample to C1 as stated, in both directions it overclaims.
Failure gap: with the OpenAI provider missing, the run
Writer → Editor(OpenAI) → Synthesizer records turn numbers `[1, 3, 4]` —
the Editor's invocation consumed a number without recording a turn.
Duplicate ids: with two active Editors sharing `agent_id` "editor" and
every call succeeding, both editor tasks look up the same dict key and
record the number 3, so the history numbers are `[1, 3, 3, 4]` — not
strictly increasing, despite no invocation failing. -/
theorem turn_numbers_contiguity_counterexample :
    ((run_streaming oraclesNoOpenai cfgWriterEditorSynth none).history.map
        (fun t => t.turn_number) = [1, 3, 4]
      ∧ (run_streaming oraclesNoOpenai cfgWriterEditorSynth none).history.length = 3
      ∧ [1, 3, 4] ≠ List.range' 1 3)
    ∧ ((run_streaming oraclesOk cfgDupEditors none).history.map
        (fun t => t.turn_number) = [1, 3, 3, 4]
      ∧ ¬ List.Chain' (· < ·) ([1, 3, 3, 4] : List ℕ)) := by
  refine ⟨⟨by with_unfolding_all rfl, by with_unfolding_all rfl, by decide⟩,
    by with_unfolding_all rfl, ?_⟩
  intro h
  simp only [List.chain'_cons] at h
  exact absurd h.2.1 (by decide)

/-! ### The working-document invariant -/

/-- The document in force after history `H`, starting from `prev`: the
last recorded snapshot, or `prev` while nothing is recorded. -/
def docAfter (prev : String) (H : List ExchangeTurn) : String :=
  match H.getLast? with
  | some u => u.working_document
  | none => prev

theorem getCurrentDocument_eq_docAfter (cfg : SessionConfig)
    (H : List ExchangeTurn) :
    getCurrentDocument cfg H = docAfter cfg.working_document H := rfl

theorem docAfter_append_one (prev : String) (H : List ExchangeTurn)
    (t : ExchangeTurn) : docAfter prev (H ++ [t]) = t.working_document := by
  simp [docAfter]

theorem docAfter_cons (prev : String) (u : ExchangeTurn)
    (H : List ExchangeTurn) :
    docAfter prev (u :: H) = docAfter u.working_document H := by
  cases H with
  | nil => rfl
  | cons v H =>
    unfold docAfter
    rw [List.getLast?_cons_cons]
    rcases hl : (v :: H).getLast? with _ | x
    · simp at hl
    · rfl

/-- One turn's obligation against the document `prev` in force before
it: the turn was produced by an active agent of the session, and its
snapshot is that agent's output when the agent is a phase-1 Writer, and
the unchanged `prev` otherwise. -/
def DocPred (cfg : SessionConfig) (prev : String) (t : ExchangeTurn) : Prop :=
  ∃ a ∈ activeAgents cfg, t.agent_id = a.agent_id
    ∧ t.working_document = (if a.phase = 1 then t.output else prev)

/-- The document invariant over a history: every turn satisfies
`DocPred` against the document in force before it (the previous turn's
snapshot, or the initial `prev` for the first turn). -/
def DocInv (cfg : SessionConfig) : String → List ExchangeTurn → Prop
  | _, [] => True
  | prev, t :: rest => DocPred cfg prev t ∧ DocInv cfg t.working_document rest

theorem docInv_append_one (cfg : SessionConfig) (t : ExchangeTurn) :
    ∀ (H : List ExchangeTurn) (prev : String), DocInv cfg prev H →
    DocPred cfg (docAfter prev H) t → DocInv cfg prev (H ++ [t]) := by
  intro H
  induction H with
  | nil =>
    intro prev _ hp
    exact ⟨hp, trivial⟩
  | cons u H ih =>
    intro prev h hp
    obtain ⟨h1, h2⟩ := h
    show DocPred cfg prev u ∧ DocInv cfg u.working_document (H ++ [t])
    refine ⟨h1, ih u.working_document h2 ?_⟩
    rwa [docAfter_cons] at hp

theorem docInv_append_batch (cfg : SessionConfig) :
    ∀ (ts H : List ExchangeTurn) (prev : String),
    DocInv cfg prev H →
    (∀ t ∈ ts, (∃ a ∈ activeAgents cfg, t.agent_id = a.agent_id ∧ ¬ a.phase = 1)
      ∧ t.working_document = docAfter prev H) →
    DocInv cfg prev (H ++ ts) := by
  intro ts
  induction ts with
  | nil =>
    intro H prev h _
    simpa using h
  | cons t ts ih =>
    intro H prev h hts
    obtain ⟨⟨a, ha, hid, hph⟩, hdoc⟩ := hts t (by simp)
    have h1 : DocInv cfg prev (H ++ [t]) :=
      docInv_append_one cfg t H prev h ⟨a, ha, hid, by rw [if_neg hph]; exact hdoc⟩
    have h2 : DocInv cfg prev ((H ++ [t]) ++ ts) := by
      refine ih (H ++ [t]) prev h1 ?_
      intro u hu
      obtain ⟨he, hd⟩ := hts u (by simp [hu])
      refine ⟨he, ?_⟩
      rw [docAfter_append_one, hdoc]
      exact hd
    simpa [List.append_assoc] using h2

/-- The state with its history replaced. -/
def withHistory (st : SchedState) (H : List ExchangeTurn) : SchedState :=
  { st with history := H }

@[simp] theorem withHistory_history (st : SchedState) (H : List ExchangeTurn) :
    (withHistory st H).history = H := rfl

/-- The document invariant as a state predicate, threaded from the
configured initial document. -/
def SDocInv (cfg : SessionConfig) (st : SchedState) : Prop :=
  DocInv cfg cfg.working_document st.history

theorem sDocInv_of_eq (cfg : SessionConfig) (st st₀ : SchedState)
    (h : SDocInv cfg st₀) (h1 : st.history = st₀.history) : SDocInv cfg st := by
  rw [SDocInv, h1]
  exact h

theorem sDocInv_runOneSequentialAgent (os : Oracles) (cfg : SessionConfig)
    (b : Option ℤ) (st : SchedState) (a : AgentConfig)
    (ha : a ∈ activeAgents cfg) (h : SDocInv cfg st) :
    SDocInv cfg (runOneSequentialAgent os cfg b st a) := by
  rcases runOneSequentialAgent_history os cfg b st a with hh | ⟨t, hh, _, hid, hdoc⟩
  · exact sDocInv_of_eq cfg _ st h hh
  · rw [SDocInv, hh]
    refine docInv_append_one cfg t st.history cfg.working_document h
      ⟨a, ha, hid, ?_⟩
    rw [hdoc, getCurrentDocument_eq_docAfter]

theorem sDocInv_runSequentialAgents (os : Oracles) (cfg : SessionConfig)
    (b : Option ℤ) :
    ∀ (ags : List AgentConfig), (∀ a ∈ ags, a ∈ activeAgents cfg) →
    ∀ (st : SchedState), SDocInv cfg st →
    SDocInv cfg (runSequentialAgents os cfg b st ags).1 := by
  intro ags
  induction ags with
  | nil => intro _ st h; exact h
  | cons a rest ih =>
    intro hags st h
    have h' : SDocInv cfg (afterCancelRead st) := sDocInv_of_eq cfg _ st h rfl
    unfold runSequentialAgents
    dsimp only
    split
    · exact sDocInv_of_eq cfg _ st h rfl
    · split
      · exact sDocInv_of_eq cfg _ st h rfl
      · exact ih (fun x hx => hags x (List.mem_cons_of_mem a hx)) _
          (sDocInv_runOneSequentialAgent os cfg b (afterCancelRead st) a
            (hags a (List.mem_cons_self a rest)) h')

theorem sDocInv_runEditorBatch (os : Oracles) (cfg : SessionConfig)
    (b : Option ℤ) (st : SchedState) (h : SDocInv cfg st) :
    SDocInv cfg (runEditorBatch os cfg b st).1 := by
  unfold runEditorBatch
  dsimp only
  split
  · exact sDocInv_of_eq cfg _ st h rfl
  · obtain ⟨hf1, hf2, hf3, hf4⟩ := editorFold_spec
      (editorResults os cfg st.history st.current_round (phase2Agents cfg)
        st.turn_number) _
    have hspec := editorTurns_spec os cfg st.history st.current_round
      (phase2Agents cfg) st.turn_number
    refine sDocInv_of_eq cfg _
      (withHistory st (st.history ++ editorTurns os cfg st.history
        st.current_round (phase2Agents cfg) st.turn_number)) ?_ ?_
    · rw [SDocInv, withHistory_history]
      refine docInv_append_batch cfg _ st.history cfg.working_document h ?_
      intro t ht
      obtain ⟨_, _, hdoc, a, ha, hid⟩ := hspec t ht
      have hmem := List.mem_filter.mp ha
      have hph : a.phase ≠ 1 ∧ a.phase ≠ 3 := by simpa using hmem.2
      refine ⟨⟨a, hmem.1, hid, hph.1⟩, ?_⟩
      rw [hdoc, getCurrentDocument_eq_docAfter]
    · simp only [creditWarningCheck_history, withHistory_history]
      rw [hf1]
      rfl

theorem sDocInv_runFinalPass (os : Oracles) (cfg : SessionConfig)
    (st : SchedState) (h : SDocInv cfg st) :
    SDocInv cfg (runFinalPass os cfg st) := by
  unfold runFinalPass
  split
  · exact h
  · rename_i writer tl heq
    dsimp only
    split
    · exact sDocInv_of_eq cfg _ st h rfl
    · split
      · exact sDocInv_of_eq cfg _ st h rfl
      · rcases hc : os.call ((afterCancelRead st).turn_number + 1) with ⟨c, i, o⟩ | m
        · simp only [hc]
          try dsimp only
          have hwmem : writer ∈ phase1Agents cfg := by
            rw [heq]
            exact List.mem_cons_self writer tl
          have hwf := List.mem_filter.mp hwmem
          have hwph : writer.phase = 1 := by simpa using hwf.2
          refine sDocInv_of_eq cfg _
            (withHistory st (st.history
              ++ [buildTurn os writer ((afterCancelRead st).turn_number + 1)
                (afterCancelRead st).current_round c i o
                (update_working_document cfg (afterCancelRead st).history writer
                  (os.extractContent c))])) ?_ (by simp)
          rw [SDocInv, withHistory_history]
          refine docInv_append_one cfg _ st.history cfg.working_document h
            ⟨writer, hwf.1, by simp, ?_⟩
          rw [if_pos hwph]
          simp [update_working_document, hwph]
        · exact sDocInv_of_eq cfg _ st h rfl

theorem sDocInv_runPhaseLoop (os : Oracles) (cfg : SessionConfig)
    (b : Option ℤ) :
    ∀ (ps : List ℤ) (st : SchedState), SDocInv cfg st →
    SDocInv cfg (runPhaseLoop os cfg b ps st).1 := by
  intro ps
  induction ps with
  | nil => intro st h; exact h
  | cons p rest ih =>
    intro st h
    have h' : SDocInv cfg (afterCancelRead st) := sDocInv_of_eq cfg _ st h rfl
    unfold runPhaseLoop
    dsimp only
    split
    · exact sDocInv_of_eq cfg _ st h rfl
    · split
      · have hb := sDocInv_runEditorBatch os cfg b (afterCancelRead st) h'
        rcases hmb : runEditorBatch os cfg b (afterCancelRead st) with ⟨st₁, oc⟩
        rw [hmb] at hb
        cases oc
        · exact ih st₁ hb
        · exact hb
      · have hsub : ∀ a ∈ (if p = 1 then phase1Agents cfg else if p = 2 then []
            else phase3Agents cfg), a ∈ activeAgents cfg := by
          intro a ha
          split at ha
          · exact List.mem_of_mem_filter ha
          · split at ha
            · simp at ha
            · exact List.mem_of_mem_filter ha
        have hs := sDocInv_runSequentialAgents os cfg b
          (if p = 1 then phase1Agents cfg else if p = 2 then []
            else phase3Agents cfg) hsub (afterCancelRead st) h'
        rcases hms : runSequentialAgents os cfg b (afterCancelRead st)
            (if p = 1 then phase1Agents cfg else if p = 2 then []
              else phase3Agents cfg) with ⟨st₁, oc⟩
        rw [hms] at hs
        cases oc
        · dsimp only
          split
          · exact sDocInv_of_eq cfg _ st₁ hs rfl
          · exact ih _ (sDocInv_of_eq cfg _ st₁ hs rfl)
        · exact hs

theorem sDocInv_runRounds (os : Oracles) (cfg : SessionConfig)
    (b : Option ℤ) :
    ∀ (fuel : ℕ) (st : SchedState), SDocInv cfg st →
    SDocInv cfg (runRounds os cfg b fuel st) := by
  intro fuel
  induction fuel with
  | zero => intro st h; exact h
  | succ n ih =>
    intro st h
    have h' : SDocInv cfg (startRound (afterCancelRead st)) :=
      sDocInv_of_eq cfg _ st h rfl
    unfold runRounds
    dsimp only
    split
    · exact sDocInv_of_eq cfg _ st h rfl
    · have hp := sDocInv_runPhaseLoop os cfg b [1, 2, 3]
        (startRound (afterCancelRead st)) h'
      rcases hmp : runPhaseLoop os cfg b [1, 2, 3]
          (startRound (afterCancelRead st)) with ⟨st₁, oc⟩
      rw [hmp] at hp
      cases oc
      · dsimp only
        split
        · exact sDocInv_of_eq cfg _ st₁ hp rfl
        · split
          · rename_i reasonv hr
            have hq := sDocInv_runFinalPass os cfg
              { emitEv (afterCancelRead st₁)
                  (.round_complete (afterCancelRead st₁).current_round) with
                termination_reason := some reasonv }
              (sDocInv_of_eq cfg _ st₁ hp rfl)
            exact sDocInv_of_eq cfg _ _ hq rfl
          · exact ih _ (sDocInv_of_eq cfg _ st₁ hp rfl)
      · exact hp

/-- **C2.** For every recorded turn of every session the scheduler runs,
the turn was produced by one of the session's active agents; when that
agent is a phase-1 Writer the turn's `working_document` equals the
turn's own extracted output, and otherwise (Editor or Synthesizer) it
equals the document in force before the turn — the previous turn's
`working_document`, or the session's configured initial document for the
first turn. -/
theorem working_document_invariant (os : Oracles) (cfg : SessionConfig)
    (b : Option ℤ) :
    DocInv cfg cfg.working_document (run_streaming os cfg b).history := by
  rw [run_streaming]
  dsimp only
  split
  · simp [emitEv, DocInv]
  · exact sDocInv_runRounds os cfg b _ _ (by simp [SDocInv, DocInv, emitEv])

/-! ### Fault-free round counting -/

/-- The number of active agents one round visits. -/
def totalAgents (cfg : SessionConfig) : ℕ :=
  (phase1Agents cfg).length + (phase2Agents cfg).length + (phase3Agents cfg).length

/-- The number of turns one fault-free pass over phase `p` records. -/
def cleanPhaseAgents (cfg : SessionConfig) (p : ℤ) : ℕ :=
  if p = 1 then (phase1Agents cfg).length
  else if p = 2 then (phase2Agents cfg).length
  else (phase3Agents cfg).length

theorem sum_cleanPhaseAgents (cfg : SessionConfig) :
    (([1, 2, 3] : List ℤ).map (cleanPhaseAgents cfg)).sum = totalAgents cfg := by
  simp [cleanPhaseAgents, totalAgents]
  omega

theorem check_termination_no_threshold (cfg : SessionConfig)
    (hth : cfg.termination.score_threshold = none)
    (hist : List ExchangeTurn) (cr : ℕ) :
    check_termination cfg hist cr
      = if cfg.termination.max_rounds ≤ cr then
          some ("Maximum rounds reached (" ++ toString cfg.termination.max_rounds ++ ")")
        else none := by
  unfold check_termination
  rw [hth]

theorem emitEv_getLast (st : SchedState) (e : StreamEvent) :
    (emitEv st e).events.getLast? = some e := by
  simp [emitEv]

theorem clean_runOneSequentialAgent (os : Oracles) (cfg : SessionConfig)
    (st : SchedState) (a : AgentConfig)
    (hprov : ∀ p, os.providerConfigured p = true)
    (hcall : ∀ n, ∃ c i o, os.call n = .ok c i o) :
    (runOneSequentialAgent os cfg none st a).history.length
      = st.history.length + 1
    ∧ (runOneSequentialAgent os cfg none st a).current_round
      = st.current_round := by
  obtain ⟨c, i, o, hc⟩ := hcall (st.turn_number + 1)
  obtain ⟨t, hh, _, _⟩ := runOneSequentialAgent_history_ok os cfg none st a
    (hprov a.provider) c i o hc
  exact ⟨by rw [hh]; simp, (runOneSequentialAgent_fields os cfg none st a).2.1⟩

theorem clean_runSequentialAgents (os : Oracles) (cfg : SessionConfig)
    (hprov : ∀ p, os.providerConfigured p = true)
    (hcall : ∀ n, ∃ c i o, os.call n = .ok c i o)
    (hcanc : ∀ n, os.cancelled n = false) :
    ∀ (ags : List AgentConfig) (st : SchedState),
    (runSequentialAgents os cfg none st ags).2 = .fallThrough
    ∧ (runSequentialAgents os cfg none st ags).1.history.length
      = st.history.length + ags.length
    ∧ (runSequentialAgents os cfg none st ags).1.current_round
      = st.current_round := by
  intro ags
  induction ags with
  | nil => intro st; exact ⟨rfl, rfl, rfl⟩
  | cons a rest ih =>
    intro st
    unfold runSequentialAgents
    dsimp only
    split
    · rename_i hcl
      exact absurd hcl (by simp [cancelledNow, hcanc])
    · split
      · rename_i hdep
        exact absurd hdep (by simp)
      · have h1 := clean_runOneSequentialAgent os cfg (afterCancelRead st) a
          hprov hcall
        have h2 := ih (runOneSequentialAgent os cfg none (afterCancelRead st) a)
        refine ⟨h2.1, ?_, ?_⟩
        · rw [h2.2.1, h1.1]
          simp only [afterCancelRead_history, List.length_cons]
          omega
        · rw [h2.2.2, h1.2]
          simp

theorem clean_runEditorBatch (os : Oracles) (cfg : SessionConfig)
    (st : SchedState)
    (hprov : ∀ p, os.providerConfigured p = true)
    (hcall : ∀ n, ∃ c i o, os.call n = .ok c i o) :
    (runEditorBatch os cfg none st).2 = .fallThrough
    ∧ (runEditorBatch os cfg none st).1.history.length
      = st.history.length + (phase2Agents cfg).length
    ∧ (runEditorBatch os cfg none st).1.current_round = st.current_round := by
  unfold runEditorBatch
  dsimp only
  split
  · rename_i hdep
    exact absurd hdep (by simp)
  · obtain ⟨hf1, hf2, hf3, hf4⟩ := editorFold_spec
      (editorResults os cfg st.history st.current_round (phase2Agents cfg)
        st.turn_number) _
    have hlen := editorTurns_length_ok os cfg st.history st.current_round
      hprov hcall (phase2Agents cfg) st.turn_number
    refine ⟨rfl, ?_, ?_⟩
    · simp only [creditWarningCheck_history]
      rw [hf1, List.length_append]
      rw [show (editorResults os cfg st.history st.current_round
          (phase2Agents cfg) st.turn_number).filterMap (fun r => r.turn)
        = editorTurns os cfg st.history st.current_round (phase2Agents cfg)
          st.turn_number from rfl, hlen]
    · simp only [creditWarningCheck_current_round]
      rw [hf3]

theorem clean_runPhaseLoop (os : Oracles) (cfg : SessionConfig)
    (hprov : ∀ p, os.providerConfigured p = true)
    (hcall : ∀ n, ∃ c i o, os.call n = .ok c i o)
    (hcanc : ∀ n, os.cancelled n = false) :
    ∀ (ps : List ℤ) (st : SchedState),
    (runPhaseLoop os cfg none ps st).2 = .fallThrough
    ∧ (runPhaseLoop os cfg none ps st).1.history.length
      = st.history.length + (ps.map (cleanPhaseAgents cfg)).sum
    ∧ (runPhaseLoop os cfg none ps st).1.current_round = st.current_round := by
  intro ps
  induction ps with
  | nil => intro st; exact ⟨rfl, rfl, rfl⟩
  | cons p rest ih =>
    intro st
    unfold runPhaseLoop
    dsimp only
    split
    · rename_i hcl
      exact absurd hcl (by simp [cancelledNow, hcanc])
    · split
      · rename_i hcond
        have hb := clean_runEditorBatch os cfg (afterCancelRead st) hprov hcall
        rcases hmb : runEditorBatch os cfg none (afterCancelRead st)
          with ⟨st₁, oc⟩
        rw [hmb] at hb
        obtain ⟨ho, hbh, hbc⟩ := hb
        cases oc
        · have h2 := ih st₁
          refine ⟨h2.1, ?_, ?_⟩
          · rw [h2.2.1, hbh]
            simp only [afterCancelRead_history, List.map_cons, List.sum_cons]
            have hp2 : cleanPhaseAgents cfg p = (phase2Agents cfg).length := by
              rw [cleanPhaseAgents, hcond.1]
              simp
            rw [hp2]
            omega
          · rw [h2.2.2, hbc]
            simp
        · simp at ho
      · rename_i hcond
        have hlen_ags : (if p = 1 then phase1Agents cfg else if p = 2 then []
            else phase3Agents cfg).length = cleanPhaseAgents cfg p := by
          by_cases h1 : p = 1
          · simp [h1, cleanPhaseAgents]
          · by_cases h2 : p = 2
            · have hempty : (phase2Agents cfg).isEmpty = true := by
                by_contra hne
                exact hcond ⟨h2, hne⟩
              simp only [h1, h2, if_false, if_true, cleanPhaseAgents]
              rw [List.isEmpty_iff] at hempty
              simp [hempty]
            · simp [h1, h2, cleanPhaseAgents]
        have hs := clean_runSequentialAgents os cfg hprov hcall hcanc
          (if p = 1 then phase1Agents cfg else if p = 2 then []
            else phase3Agents cfg) (afterCancelRead st)
        rcases hms : runSequentialAgents os cfg none (afterCancelRead st)
            (if p = 1 then phase1Agents cfg else if p = 2 then []
              else phase3Agents cfg) with ⟨st₁, oc⟩
        rw [hms] at hs
        obtain ⟨ho, hsh, hsc⟩ := hs
        cases oc
        · dsimp only
          split
          · rename_i hcl2
            exact absurd hcl2 (by simp [cancelledNow, hcanc])
          · have h2 := ih (afterCancelRead st₁)
            refine ⟨h2.1, ?_, ?_⟩
            · rw [h2.2.1]
              simp only [afterCancelRead_history]
              rw [hsh, hlen_ags]
              simp only [afterCancelRead_history, List.map_cons, List.sum_cons]
              omega
            · rw [h2.2.2]
              simp only [afterCancelRead_current_round]
              rw [hsc]
              simp
        · simp at ho

theorem clean_runFinalPass (os : Oracles) (cfg : SessionConfig)
    (st : SchedState)
    (hprov : ∀ p, os.providerConfigured p = true)
    (hcall : ∀ n, ∃ c i o, os.call n = .ok c i o)
    (hcanc : ∀ n, os.cancelled n = false)
    (hw : phase1Agents cfg ≠ []) :
    (runFinalPass os cfg st).history.length = st.history.length + 1
    ∧ (runFinalPass os cfg st).current_round = st.current_round := by
  unfold runFinalPass
  split
  · rename_i heq
    exact absurd heq hw
  · rename_i writer tl heq
    dsimp only
    split
    · rename_i hcl
      exact absurd hcl (by simp [cancelledNow, hcanc])
    · rw [if_neg (by simp [hprov])]
      obtain ⟨c, i, o, hc⟩ := hcall ((afterCancelRead st).turn_number + 1)
      simp only [hc]
      try dsimp only
      constructor
      · simp
      · simp

theorem clean_runRounds (os : Oracles) (cfg : SessionConfig)
    (hth : cfg.termination.score_threshold = none)
    (hprov : ∀ p, os.providerConfigured p = true)
    (hcall : ∀ n, ∃ c i o, os.call n = .ok c i o)
    (hcanc : ∀ n, os.cancelled n = false)
    (hw : phase1Agents cfg ≠ []) :
    ∀ (fuel : ℕ) (st : SchedState),
    st.current_round < cfg.termination.max_rounds →
    cfg.termination.max_rounds ≤ st.current_round + fuel →
    (runRounds os cfg none fuel st).history.length
      = st.history.length
        + (cfg.termination.max_rounds - st.current_round) * totalAgents cfg + 1
    ∧ (runRounds os cfg none fuel st).current_round
      = cfg.termination.max_rounds
    ∧ (runRounds os cfg none fuel st).events.getLast?
      = some (.session_complete
          ("Maximum rounds reached (" ++ toString cfg.termination.max_rounds ++ ")")
          cfg.termination.max_rounds
          (st.history.length
            + (cfg.termination.max_rounds - st.current_round) * totalAgents cfg
            + 1)) := by
  intro fuel
  induction fuel with
  | zero =>
    intro st h1 h2
    exact absurd h2 (by omega)
  | succ n ih =>
    intro st h1 h2
    unfold runRounds
    dsimp only
    split
    · rename_i hcl
      exact absurd hcl (by simp [cancelledNow, hcanc])
    · have hcp := clean_runPhaseLoop os cfg hprov hcall hcanc [1, 2, 3]
        (startRound (afterCancelRead st))
      rcases hmp : runPhaseLoop os cfg none [1, 2, 3]
          (startRound (afterCancelRead st)) with ⟨st₁, oc⟩
      rw [hmp] at hcp
      obtain ⟨ho, hh, hcr2⟩ := hcp
      rw [sum_cleanPhaseAgents] at hh
      simp only [startRound_history, afterCancelRead_history] at hh
      simp only [startRound_current_round, afterCancelRead_current_round] at hcr2
      cases oc
      · dsimp only
        split
        · rename_i hcl2
          exact absurd hcl2 (by simp [cancelledNow, hcanc])
        · rw [check_termination_no_threshold cfg hth]
          have hst2c : (emitEv (afterCancelRead st₁)
              (.round_complete (afterCancelRead st₁).current_round)).current_round
              = st.current_round + 1 := by
            simp [hcr2]
          have hst2h : (emitEv (afterCancelRead st₁)
              (.round_complete (afterCancelRead st₁).current_round)).history.length
              = st.history.length + totalAgents cfg := by
            simp [hh]
          by_cases hend : cfg.termination.max_rounds
              ≤ (emitEv (afterCancelRead st₁)
                (.round_complete (afterCancelRead st₁).current_round)).current_round
          · rw [if_pos hend]
            try dsimp only
            have hend2 : cfg.termination.max_rounds ≤ st.current_round + 1 := by
              rw [hst2c] at hend
              exact hend
            have hfp := clean_runFinalPass os cfg
              { emitEv (afterCancelRead st₁)
                  (.round_complete (afterCancelRead st₁).current_round) with
                termination_reason := some ("Maximum rounds reached ("
                  ++ toString cfg.termination.max_rounds ++ ")") }
              hprov hcall hcanc hw
            obtain ⟨hfl, hfr⟩ := hfp
            have hfl' : (runFinalPass os cfg
                { emitEv (afterCancelRead st₁)
                    (.round_complete (afterCancelRead st₁).current_round) with
                  termination_reason := some ("Maximum rounds reached ("
                    ++ toString cfg.termination.max_rounds ++ ")") }).history.length
                = st.history.length
                  + (cfg.termination.max_rounds - st.current_round)
                    * totalAgents cfg + 1 := by
              rw [hfl]
              have hx : ({ emitEv (afterCancelRead st₁)
                  (.round_complete (afterCancelRead st₁).current_round) with
                termination_reason := some ("Maximum rounds reached ("
                  ++ toString cfg.termination.max_rounds ++ ")") }
                  : SchedState).history = st₁.history := rfl
              rw [hx, hh]
              have hk : cfg.termination.max_rounds - st.current_round = 1 := by
                omega
              rw [hk]
              omega
            have hfr' : (runFinalPass os cfg
                { emitEv (afterCancelRead st₁)
                    (.round_complete (afterCancelRead st₁).current_round) with
                  termination_reason := some ("Maximum rounds reached ("
                    ++ toString cfg.termination.max_rounds ++ ")") }).current_round
                = cfg.termination.max_rounds := by
              rw [hfr]
              have hx : ({ emitEv (afterCancelRead st₁)
                  (.round_complete (afterCancelRead st₁).current_round) with
                termination_reason := some ("Maximum rounds reached ("
                  ++ toString cfg.termination.max_rounds ++ ")") }
                  : SchedState).current_round = st₁.current_round := rfl
              rw [hx, hcr2]
              omega
            refine ⟨?_, ?_, ?_⟩
            · simp only [emitEv_history]
              exact hfl'
            · simp only [emitEv_current_round]
              exact hfr'
            · rw [emitEv_getLast, hfr', hfl']
          · rw [if_neg hend]
            try dsimp only
            have hlt : st.current_round + 1 < cfg.termination.max_rounds := by
              rw [hst2c] at hend
              omega
            have hrec := ih (emitEv (afterCancelRead st₁)
                (.round_complete (afterCancelRead st₁).current_round))
              (by rw [hst2c]; omega) (by rw [hst2c]; omega)
            obtain ⟨r1, r2, r3⟩ := hrec
            rw [hst2h, hst2c] at r1 r3
            have hk : cfg.termination.max_rounds - st.current_round
                = (cfg.termination.max_rounds - (st.current_round + 1)) + 1 := by
              omega
            have hnum : st.history.length + totalAgents cfg
                + (cfg.termination.max_rounds - (st.current_round + 1))
                  * totalAgents cfg + 1
                = st.history.length
                  + (cfg.termination.max_rounds - st.current_round)
                    * totalAgents cfg + 1 := by
              rw [hk, Nat.succ_mul]
              omega
            rw [hnum] at r1 r3
            exact ⟨r1, r2, r3⟩
      · simp at ho

/-- One Writer plus one Editor, one round, no threshold. -/
def cfgWriterEditor : SessionConfig :=
  ⟨"s", [writerAgent, editorAgent], ⟨1, none⟩, "task", ""⟩

/-- **C5.** With `max_rounds = N`, no score threshold, no cancellation or
pause, no budget, and every provider configured and every call
succeeding, the scheduler records exactly `N · A + 1` turns (`A` active
agents per round, plus the one final Writer pass), finishes on round
`N`, and its last event is `session_complete` with reason
`"Maximum rounds reached (N)"`.  Concretely, one active Writer and one
active Editor with `max_rounds = 1` record exactly the three turns
Writer (1), Editor (2), final Writer pass (3), and the session completes
with reason "Maximum rounds reached (1)" after round 1. -/
theorem max_rounds_then_final_writer_pass :
    (∀ (os : Oracles) (cfg : SessionConfig),
      cfg.termination.score_threshold = none →
      (∀ n, os.cancelled n = false) →
      (∀ p, os.providerConfigured p = true) →
      (∀ n, ∃ c i o, os.call n = CallResult.ok c i o) →
      1 ≤ cfg.termination.max_rounds →
      phase1Agents cfg ≠ [] →
      (run_streaming os cfg none).history.length
        = cfg.termination.max_rounds * totalAgents cfg + 1
      ∧ (run_streaming os cfg none).current_round = cfg.termination.max_rounds
      ∧ (run_streaming os cfg none).events.getLast?
        = some (.session_complete
            ("Maximum rounds reached ("
              ++ toString cfg.termination.max_rounds ++ ")")
            cfg.termination.max_rounds
            (cfg.termination.max_rounds * totalAgents cfg + 1)))
    ∧ (run_streaming oraclesOk cfgWriterEditor none).history.map
        (fun t => (t.agent_id, t.turn_number))
      = [("writer", 1), ("editor", 2), ("writer", 3)]
    ∧ (run_streaming oraclesOk cfgWriterEditor none).events.getLast?
      = some (.session_complete "Maximum rounds reached (1)" 1 3) := by
  refine ⟨?_, by with_unfolding_all rfl, by with_unfolding_all rfl⟩
  intro os cfg hth hcanc hprov hcall hN hw
  rw [run_streaming]
  dsimp only
  rw [if_neg (by simp [List.isEmpty_iff, hw])]
  have h := clean_runRounds os cfg hth hprov hcall hcanc hw
    (cfg.termination.max_rounds + 1)
    (emitEv ⟨[], 0, 0, 0, false, "", [], 0, 0, none⟩
      (.session_start (phase1Agents cfg ++ phase2Agents cfg
        ++ phase3Agents cfg).length))
    (by simp [emitEv]; omega) (by simp [emitEv])
  simpa using h

end Atelier
